import Mathlib

/-!
Verification of the reference-resolution subsystem of the story-creator
web application.

The embedding models the observable state of one story: its list of units
(`SUnit`) and its `undefined_names` list, as read and written by the
functions in `story_creator/database_handler.py`, `story_creator/services.py`
and the route handlers in `blueprints/main.py`.  Python dictionaries
(`unit.features`, form data) are modelled as association lists; SQL reads
and writes are modelled as reads and writes of the corresponding fields of
the `StoryState` record.  Floating-point feature values are carried opaquely
as their source text (no claim depends on float arithmetic), and the
plumbing that decodes a browser form into per-field strings/lists is
modelled as already split into the per-field data that
`process_form_submission` consumes.
-/

set_option autoImplicit false

namespace StoryCreator

/-- The primitive attribute types a `feature_schema` can assign
(`str`, `bool`, `int`, `float`, `list` in `new_models.py`). -/
inductive FType
  | tStr
  | tBool
  | tInt
  | tFloat
  | tList
  deriving DecidableEq, Repr

/-- A stored feature value.  Lists are reference lists (lists of unit
names); floats are carried as the source text of the stored number, with
the empty string standing for the `0.0` default. -/
inductive Value
  | vStr (s : String)
  | vBool (b : Bool)
  | vInt (n : Int)
  | vFloat (raw : String)
  | vList (l : List String)
  deriving DecidableEq, Repr

/-- A unit's `features` dictionary: an association list from attribute
name to value (Python dict keys are unique; well-formedness hypotheses
below assume `Nodup` keys where needed). -/
abbrev Features := List (String × Value)

/-- `features.get(k)` (`None` when absent). -/
def lookupF : Features → String → Option Value
  | [], _ => none
  | p :: rest, k => if p.1 = k then some p.2 else lookupF rest k

/-- `features[k] = v` on an existing key: rewrite every binding of `k`
(a Python dict has exactly one). -/
def setF : Features → String → Value → Features
  | [], _, _ => []
  | p :: rest, k, v => (if p.1 = k then (k, v) else p) :: setF rest k v

/-- The keys of a features dictionary. -/
def featureKeys (fs : Features) : List String := fs.map Prod.fst

/-- A unit as persisted in the `unit` table: id, polymorphic type tag,
name and features (`new_models.Unit` and subclasses). -/
structure SUnit where
  id : Nat
  unit_type : String
  name : String
  features : Features
  deriving DecidableEq, Repr

/-- The observable per-story state: the story's units
(`get_units_by_story_id`) and its `undefined_names` list. -/
structure StoryState where
  units : List SUnit
  undefined_names : List String
  deriving DecidableEq, Repr

/-- `Unit.base_feature_schema` from `new_models.py`. -/
def base_feature_schema : List (String × FType) := [("name", FType.tStr)]

/-- `EventOrScene.feature_schema` from `new_models.py`. -/
def eventOrScene_schema : List (String × FType) :=
  base_feature_schema ++
  [("Which people are involved?", FType.tList),
   ("Which groups are involved?", FType.tList),
   ("Which beasts are involved?", FType.tList),
   ("Which items are involved?", FType.tList),
   ("Which secrets are involved?", FType.tList),
   ("What motivations are involved?", FType.tList),
   ("Where might this happen?", FType.tList),
   ("Is this an investigation scene?", FType.tBool),
   ("Is this a social interaction?", FType.tBool),
   ("Is this a fight scene?", FType.tBool),
   ("What happens?", FType.tStr),
   ("How do relationships change?", FType.tStr),
   ("What triggers this scene to happen?", FType.tStr),
   ("Is this scene a start scene?", FType.tBool),
   ("If this scene is a start scene, who\x27s start scene is it?", FType.tList),
   ("How likely will this scene occur?", FType.tFloat)]

/-- `Secret.feature_schema` from `new_models.py`. -/
def secret_schema : List (String × FType) :=
  base_feature_schema ++
  [("What is the secret?", FType.tStr),
   ("Who knows of it?", FType.tList),
   ("Which people are involved?", FType.tList),
   ("Which groups are involved?", FType.tList),
   ("Which items are involved?", FType.tList),
   ("Excitement level (0.0 to 1.0)", FType.tFloat)]

/-- `Item.feature_schema` from `new_models.py`. -/
def item_schema : List (String × FType) :=
  base_feature_schema ++
  [("Who owns this?", FType.tList),
   ("Worth (0.0 to 1.0)", FType.tFloat),
   ("What is it?", FType.tStr),
   ("Where is it?", FType.tList)]

/-- `Beast.feature_schema` from `new_models.py`. -/
def beast_schema : List (String × FType) :=
  base_feature_schema ++
  [("Which race is this beast?", FType.tStr),
   ("Where could it be?", FType.tList),
   ("What does it look like?", FType.tStr),
   ("Aggressiveness (0.0 to 1.0)", FType.tFloat)]

/-- `Group.feature_schema` from `new_models.py`. -/
def group_schema : List (String × FType) :=
  base_feature_schema ++
  [("Who is part of the group?", FType.tList),
   ("Reason for solidarity", FType.tStr),
   ("Where did the group first meet?", FType.tList)]

/-- `Motivation.feature_schema` from `new_models.py` (the source elides
some boolean motivation-source fields with a comment; the ones present in
the source are modelled). -/
def motivation_schema : List (String × FType) :=
  base_feature_schema ++
  [("Who is motivated?", FType.tList),
   ("What is the motivation for?", FType.tStr),
   ("By whom is the motivation?", FType.tList),
   ("Is ambition the source of motivation?", FType.tBool),
   ("Is determination the source of motivation?", FType.tBool),
   ("Is reflection the source of motivation?", FType.tBool)]

/-- `Place.feature_schema` from `new_models.py`. -/
def place_schema : List (String × FType) :=
  base_feature_schema ++
  [("Where is it?", FType.tStr),
   ("Environmental conditions", FType.tStr),
   ("Associated places", FType.tList),
   ("People present", FType.tList),
   ("Groups present", FType.tList),
   ("Beasts present", FType.tList),
   ("Items present", FType.tList),
   ("Secrets can be found here", FType.tList),
   ("Size (0.0 to 1.0)", FType.tFloat),
   ("What does it look like?", FType.tStr),
   ("Special history", FType.tList),
   ("Upcoming events at this place", FType.tStr),
   ("Is it a space in nature?", FType.tBool),
   ("Is it an urban space?", FType.tBool),
   ("Is it a cave?", FType.tBool)]

/-- `TransportationInfrastructure.feature_schema` from `new_models.py`. -/
def transportation_schema : List (String × FType) :=
  base_feature_schema ++
  [("Connecting places", FType.tList),
   ("Usage frequency (0.0 to 1.0)", FType.tFloat),
   ("For motor vehicles?", FType.tBool),
   ("For non-motor vehicles?", FType.tBool),
   ("For pedestrians?", FType.tBool),
   ("Is it a street?", FType.tBool),
   ("Is it a railway?", FType.tBool),
   ("Is it a bridge?", FType.tBool)]

/-- `Character.feature_schema` from `new_models.py`. -/
def character_schema : List (String × FType) :=
  base_feature_schema ++
  [("Is this a player character?", FType.tBool),
   ("Skills or talents", FType.tStr),
   ("Involved events or scenes", FType.tList),
   ("Groups part of", FType.tList),
   ("Plans involving this character", FType.tList),
   ("Character\x27s backstory", FType.tStr),
   ("Important people for this character", FType.tList),
   ("Important items for this character", FType.tList)]

/-- Modelled from the spec: the Entity Schema Registry dispatch
(spec section 4.1).  The function `get_unit_class` is imported by
`database_handler.py` from `new_models.py` but its definition is not in
the sources; per the spec it maps a type tag to that kind's attribute
schema, always including the leading `name: string` entry.  The schemas
themselves are taken verbatim from the subclass definitions in
`new_models.py`; an unknown tag falls back to the base schema
(the registry's sentinel case, never reached by the route handlers). -/
def feature_schema_of : String → List (String × FType)
  | "EventOrScene" => eventOrScene_schema
  | "Secret" => secret_schema
  | "Item" => item_schema
  | "Beast" => beast_schema
  | "Group" => group_schema
  | "Motivation" => motivation_schema
  | "Place" => place_schema
  | "TransportationInfrastructure" => transportation_schema
  | "Character" => character_schema
  | _ => base_feature_schema

/-- `get_unit_by_name(story_id, unit_name)`: the first unit of the story
with the given name, if any. -/
def get_unit_by_name (units : List SUnit) (n : String) : Option SUnit :=
  units.find? (fun u => u.name == n)

/-- The inner loop of the first block of
`database_handler.update_references_with_new_unit`: for each value `v` of
a list-valued feature, if no unit of the story is named `v` and `v` is
not yet in `undefined_names`, append it. -/
def add_undefined_from_values (units : List SUnit) :
    List String → List String → List String
  | [], und => und
  | v :: rest, und =>
      add_undefined_from_values units rest
        (if (get_unit_by_name units v).isNone ∧ v ∉ und then und ++ [v] else und)

/-- The first block of `database_handler.update_references_with_new_unit`:
iterate over `unit.features.items()` and process every value that is a
list. -/
def add_undefined_from_features (units : List SUnit) :
    Features → List String → List String
  | [], und => und
  | (_, Value.vList vals) :: rest, und =>
      add_undefined_from_features units rest (add_undefined_from_values units vals und)
  | _ :: rest, und => add_undefined_from_features units rest und

/-- One schema entry of the per-other-unit rewrite loop in
`database_handler.update_references_with_new_unit` (lines 594-613):

* a `list`-typed attribute holding a list: when `old_name` is truthy and
  occurs in the list, every occurrence of `old_name` is replaced by
  `unit.name`; the `elif` forward-resolution branch only sets the
  `updated` flag and performs no mutation;
* a `str`-typed attribute holding a string: when it equals `old_name`
  it is rewritten to `unit.name`; otherwise, when it equals `unit.name`
  and `unit.name` is not among the story's unit names, it is rewritten
  to `unit.name` (same value). -/
def rewrite_feature (names : List String) (uname : String) (old_name : Option String)
    (fname : String) (fty : FType) (fs : Features) : Features :=
  match fty, lookupF fs fname with
  | FType.tList, some (Value.vList l) =>
      (match old_name with
       | some o =>
           if o ≠ "" ∧ o ∈ l then
             setF fs fname (Value.vList (l.map fun x => if x = o then uname else x))
           else fs
       | none => fs)
  | FType.tStr, some (Value.vStr s) =>
      if old_name = some s then setF fs fname (Value.vStr uname)
      else if s = uname ∧ uname ∉ names then setF fs fname (Value.vStr uname)
      else fs
  | _, _ => fs

/-- The per-other-unit loop over `type(other_unit).feature_schema`. -/
def rewrite_features (names : List String) (uname : String) (old_name : Option String) :
    List (String × FType) → Features → Features
  | [], fs => fs
  | (fname, fty) :: rest, fs =>
      rewrite_features names uname old_name rest (rewrite_feature names uname old_name fname fty fs)

/-- The step-3 rewrite applied to one other unit of the story. -/
def rewrite_unit (names : List String) (uname : String) (old_name : Option String)
    (w : SUnit) : SUnit :=
  { w with features := rewrite_features names uname old_name (feature_schema_of w.unit_type) w.features }

/-- `database_handler.update_references_with_new_unit(unit, story, old_name)`
as a transformation of the story state, invoked after `unit` has been
persisted:
1. append to `undefined_names` every value of a list-valued feature of
   `unit` that names no unit of the story and is not yet present;
2. remove `unit.name` from `undefined_names` if present
   (`list.remove`: first occurrence);
3. rewrite every other unit's features per `rewrite_unit` (the unit
   itself, identified by id, is skipped); units whose `updated` flag was
   set are persisted, which leaves exactly the mutated features in the
   store. -/
def update_references_with_new_unit (u : SUnit) (old_name : Option String)
    (st : StoryState) : StoryState :=
  let und1 := add_undefined_from_features st.units u.features st.undefined_names
  let und2 := if u.name ∈ und1 then und1.erase u.name else und1
  let names := st.units.map (fun w => w.name)
  { units := st.units.map (fun w => if w.id = u.id then w else rewrite_unit names u.name old_name w),
    undefined_names := und2 }

/-- One schema entry of the rewrite loop of the ORM-style
`services.update_references_with_new_unit` (services.py lines 147-168):
features missing from the dictionary are skipped; a list-typed attribute
has occurrences of `old_name` replaced by `unit.name`; a str-typed
attribute equal to `old_name` is rewritten to `unit.name`.  There is no
forward-resolution branch. -/
def services_rewrite_feature (uname : String) (old_name : String)
    (fname : String) (fty : FType) (fs : Features) : Features :=
  match fty, lookupF fs fname with
  | FType.tList, some (Value.vList l) =>
      if old_name ∈ l then
        setF fs fname (Value.vList (l.map fun x => if x = old_name then uname else x))
      else fs
  | FType.tStr, some (Value.vStr s) =>
      if s = old_name then setF fs fname (Value.vStr uname)
      else fs
  | _, _ => fs

/-- The ORM-style per-other-unit rewrite of `services.py`. -/
def services_rewrite_features (uname : String) (old_name : String) :
    List (String × FType) → Features → Features
  | [], fs => fs
  | (fname, fty) :: rest, fs =>
      services_rewrite_features uname old_name rest (services_rewrite_feature uname old_name fname fty fs)

/-- The ORM-style rewrite applied to one other unit of the story
(`services.update_references_with_new_unit`, per-unit body). -/
def services_rewrite_unit (uname : String) (old_name : String) (w : SUnit) : SUnit :=
  { w with features := services_rewrite_features uname old_name (feature_schema_of w.unit_type) w.features }

/-- The old-name-only rewrite contract the spec states for step 3
(spec section 4.4, Design Notes section 9): only explicit
`old_name` to `unit.name` rewrites, no forward-resolution branch.
Stated here as the comparison point for the guard analysis of the raw
implementation. -/
def rewrite_feature_no_forward (uname : String) (old_name : Option String)
    (fname : String) (fty : FType) (fs : Features) : Features :=
  match fty, lookupF fs fname with
  | FType.tList, some (Value.vList l) =>
      (match old_name with
       | some o =>
           if o ≠ "" ∧ o ∈ l then
             setF fs fname (Value.vList (l.map fun x => if x = o then uname else x))
           else fs
       | none => fs)
  | FType.tStr, some (Value.vStr s) =>
      if old_name = some s then setF fs fname (Value.vStr uname)
      else fs
  | _, _ => fs

/-- The old-name-only rewrite folded over a schema. -/
def rewrite_features_no_forward (uname : String) (old_name : Option String) :
    List (String × FType) → Features → Features
  | [], fs => fs
  | (fname, fty) :: rest, fs =>
      rewrite_features_no_forward uname old_name rest
        (rewrite_feature_no_forward uname old_name fname fty fs)

/-- The old-name-only rewrite applied to one unit. -/
def rewrite_unit_no_forward (uname : String) (old_name : Option String) (w : SUnit) : SUnit :=
  { w with features := rewrite_features_no_forward uname old_name (feature_schema_of w.unit_type) w.features }

/-- Python `str.strip()`, modelled directly over the character list:
drop whitespace from both ends.  (Lean's own `String.trim` is not used
because its implementation does not reduce in the kernel.) -/
def pyStrip (s : String) : String :=
  String.mk (((s.data.dropWhile Char.isWhitespace).reverse.dropWhile Char.isWhitespace).reverse)

/-- Python `str.split(', ')`: scan left to right, cutting at each
non-overlapping occurrence of the two-character separator. -/
def splitCommaSpaceGo : List Char → List Char → List String
  | [], acc => [String.mk acc.reverse]
  | ',' :: ' ' :: rest, acc => String.mk acc.reverse :: splitCommaSpaceGo rest []
  | c :: rest, acc => splitCommaSpaceGo rest (c :: acc)

/-- `new_value.split(', ')` on a whole string. -/
def py_split_comma_space (s : String) : List String :=
  splitCommaSpaceGo s.data []

/-- Leading decimal digits of a character list: their count and the rest. -/
def span_digits : List Char → Nat × List Char
  | [] => (0, [])
  | c :: rest =>
      if c.isDigit then
        let p := span_digits rest
        (p.1 + 1, p.2)
      else (0, c :: rest)

/-- The exponent tail of a Python float literal: an optional sign followed
by one or more digits and nothing else. -/
def py_float_exp_ok (cs : List Char) : Bool :=
  let cs2 := match cs with
    | c :: rest => if c == '+' || c == '-' then rest else c :: rest
    | [] => []
  let p := span_digits cs2
  decide (0 < p.1) && p.2.isEmpty

/-- The body of a Python float literal after whitespace and sign stripping:
`inf`, `infinity` or `nan` in any case, or a decimal literal — digits, an
optional fraction with a digit on at least one side of the dot, and an
optional e/E exponent. -/
def py_float_body (cs : List Char) : Bool :=
  let lower := cs.map Char.toLower
  if lower == "inf".data || lower == "infinity".data || lower == "nan".data then true
  else
    let p1 := span_digits cs
    match p1.2 with
    | [] => decide (0 < p1.1)
    | '.' :: r2 =>
        let p2 := span_digits r2
        if p1.1 + p2.1 == 0 then false
        else
          match p2.2 with
          | [] => true
          | e :: r4 => (e == 'e' || e == 'E') && py_float_exp_ok r4
    | e :: r2 => decide (0 < p1.1) && (e == 'e' || e == 'E') && py_float_exp_ok r2

/-- Python `float(text)` acceptance: whether `float(value)` succeeds or
raises `ValueError`, modelled over the character list (optional surrounding
whitespace and sign around a float-literal body).  Underscore digit
separators, accepted by Python 3.6+, are not modelled; no claim exercises
them. -/
def py_float_ok (s : String) : Bool :=
  let cs := ((s.data.dropWhile Char.isWhitespace).reverse.dropWhile Char.isWhitespace).reverse
  let cs2 := match cs with
    | c :: rest => if c == '+' || c == '-' then rest else c :: rest
    | [] => []
  py_float_body cs2

/-- One field of a submitted browser form, as `process_form_submission`
reads it from the request's `MultiDict`: `text` is
`form_data.get(f, [''])[0]`, `selected` is the list selection
`form_data.get(f)` (empty when absent), `newText` is the already-stripped
companion field `form_data.get(f + "_new", [''])[0].strip()`. -/
structure FormField where
  text : String
  selected : List String
  newText : String
  deriving DecidableEq, Repr

/-- A submitted form: field name to field data. -/
abbrev FormData := List (String × FormField)

/-- Field lookup with the empty-field default. -/
def getField (fd : FormData) (k : String) : FormField :=
  match fd with
  | [] => { text := "", selected := [], newText := "" }
  | p :: rest => if p.1 = k then p.2 else getField rest k

/-- `combined_values` for a list-typed field: selected values plus the
comma-split new values, stripped, empty entries dropped. -/
def combined_values (fld : FormField) : List String :=
  ((fld.selected ++ py_split_comma_space fld.newText).map pyStrip).filter (fun v => v ≠ "")

/-- The result of `process_form_submission`: the collected `features`,
the collected `errors`, and the story state after the undefined-name
additions (the story is persisted by the trailing `update_story`). -/
structure PfsResult where
  features : Features
  errors : List String
  st : StoryState
  deriving DecidableEq, Repr

/-- `main.process_form_submission(form_data, feature_schema, story)`:
iterate the schema in order; `name` is stored stripped; booleans are the
`'on'` checkbox test; ints and floats parse `int(value)` / `float(value)`
when the text is non-empty, collecting an `Invalid value` error and storing
the 0 default on `ValueError`; strings are stored stripped; for list fields
the combined values are stored and every combined value naming no unit of
the story and not yet in `undefined_names` is appended to it. -/
def process_form_submission_from (fd : FormData) :
    List (String × FType) → PfsResult → PfsResult
  | [], acc => acc
  | (fname, fty) :: rest, acc =>
      process_form_submission_from fd rest
        (if fname = "name" then
          { acc with features := acc.features ++ [(fname, Value.vStr (pyStrip (getField fd fname).text))] }
         else
          match fty with
          | FType.tBool =>
              { acc with features := acc.features ++ [(fname, Value.vBool ((getField fd fname).text = "on"))] }
          | FType.tFloat =>
              (match (getField fd fname).text with
               | "" => { acc with features := acc.features ++ [(fname, Value.vFloat "")] }
               | t =>
                  if py_float_ok t then
                    { acc with features := acc.features ++ [(fname, Value.vFloat t)] }
                  else
                    { acc with
                      features := acc.features ++ [(fname, Value.vFloat "")],
                      errors := acc.errors ++ ["Invalid value for " ++ fname ++ "."] })
          | FType.tStr =>
              { acc with features := acc.features ++ [(fname, Value.vStr (pyStrip (getField fd fname).text))] }
          | FType.tInt =>
              (match (getField fd fname).text with
               | "" => { acc with features := acc.features ++ [(fname, Value.vInt 0)] }
               | t =>
                  match t.toInt? with
                  | some n => { acc with features := acc.features ++ [(fname, Value.vInt n)] }
                  | none =>
                      { acc with
                        features := acc.features ++ [(fname, Value.vInt 0)],
                        errors := acc.errors ++ ["Invalid value for " ++ fname ++ "."] })
          | FType.tList =>
              let combined := combined_values (getField fd fname)
              { acc with
                features := acc.features ++ [(fname, Value.vList combined)],
                st := { acc.st with
                        undefined_names := add_undefined_from_values acc.st.units combined acc.st.undefined_names } })

/-- `process_form_submission` started on the empty accumulator. -/
def process_form_submission (schema : List (String × FType)) (fd : FormData)
    (st : StoryState) : PfsResult :=
  process_form_submission_from fd schema { features := [], errors := [], st := st }

/-- The name the save branch extracts and validates:
`features.get('name', '').strip()`. -/
def submitted_name (schema : List (String × FType)) (fd : FormData) (st : StoryState) : String :=
  pyStrip (match lookupF (process_form_submission schema fd st).features "name" with
   | some (Value.vStr s) => s
   | _ => "")

/-- The fresh id the insert (`lastrowid`) assigns to a new unit row. -/
def fresh_id (units : List SUnit) : Nat :=
  (units.foldr (fun u m => max u.id m) 0) + 1

/-- The result of a route operation: the story state it leaves behind and
whether it succeeded (redirect) or failed (form re-rendered / 404). -/
structure OpResult where
  st : StoryState
  ok : Bool
  deriving DecidableEq, Repr

/-- The `save_unit` branch of `main.add_unit` (lines 355-392):
process the form (which already mutates `undefined_names`), validate the
name (required, no duplicate in the story), and on success persist the
new unit (`add_unit_to_story`) and reconcile with
`old_name = unit.name`.  On failure the form is re-rendered: the unit is
not created and the resolver is not invoked, but the form-processing
mutation of `undefined_names` stands. -/
def add_unit_save (unit_type : String) (fd : FormData) (st : StoryState) : OpResult :=
  let schema := feature_schema_of unit_type
  let r := process_form_submission schema fd st
  let name := submitted_name schema fd st
  let errors := r.errors ++
    (if name = "" then ["Name is required."]
     else if (get_unit_by_name r.st.units name).isSome then
       ["A unit with the name " ++ name ++ " already exists in this story."]
     else [])
  if errors = [] then
    let features := setF r.features "name" (Value.vStr name)
    let u : SUnit := { id := fresh_id r.st.units, unit_type := unit_type, name := name, features := features }
    let st2 := { r.st with units := r.st.units ++ [u] }
    { st := update_references_with_new_unit u (some u.name) st2, ok := true }
  else
    { st := r.st, ok := false }

/-- The `save_unit` branch of `main.edit_unit` (lines 516-553): the unit
is fetched by name; the form is processed; the new name is validated
(required, and any unit already holding it must be the edited unit
itself); on success the old name is captured, the unit's name and
features are overwritten and persisted (`update_unit`), and the resolver
runs with the captured `old_name`. -/
def edit_unit_save (unit_name : String) (fd : FormData) (st : StoryState) : OpResult :=
  match get_unit_by_name st.units unit_name with
  | none => { st := st, ok := false }
  | some unit =>
      let schema := feature_schema_of unit.unit_type
      let r := process_form_submission schema fd st
      let new_name := submitted_name schema fd st
      let errors := r.errors ++
        (if new_name = "" then ["Name is required."]
         else
           match get_unit_by_name r.st.units new_name with
           | some existing =>
               if existing.id ≠ unit.id then
                 ["A unit with the name " ++ new_name ++ " already exists in this story."]
               else []
           | none => [])
      if errors = [] then
        let old_name := unit.name
        let features := setF r.features "name" (Value.vStr new_name)
        let unit2 : SUnit := { unit with name := new_name, features := features }
        let st2 := { r.st with
                     units := r.st.units.map (fun w => if w.id = unit.id then unit2 else w) }
        { st := update_references_with_new_unit unit2 (some old_name) st2, ok := true }
      else
        { st := r.st, ok := false }

/-- `main.delete_unit` with `database_handler.delete_unit_from_story`:
fetch the unit by name (404 leaves the state untouched) and delete its
row; nothing else of the story is read or written. -/
def delete_unit_op (unit_name : String) (st : StoryState) : StoryState :=
  match get_unit_by_name st.units unit_name with
  | none => st
  | some u => { st with units := st.units.filter (fun w => w.id ≠ u.id) }

/-- Story states reachable from a fresh story (created with an empty unit
list and empty `undefined_names`) through the create and edit flows. -/
inductive Reachable : StoryState → Prop
  | init : Reachable { units := [], undefined_names := [] }
  | add (st : StoryState) (unit_type : String) (fd : FormData) :
      Reachable st → Reachable (add_unit_save unit_type fd st).st
  | edit (st : StoryState) (unit_name : String) (fd : FormData) :
      Reachable st → Reachable (edit_unit_save unit_name fd st).st

/-- The reference names a unit carries: the concatenation of the values
of its reference-list-typed attributes (per its type's schema).  Used to
state the spec's undefined-names invariant. -/
def unit_ref_names (w : SUnit) : List String :=
  (feature_schema_of w.unit_type).foldr
    (fun p acc =>
      if p.2 = FType.tList then
        match lookupF w.features p.1 with
        | some (Value.vList l) => l ++ acc
        | _ => acc
      else acc) []

/-- Following the spec's words: the names occurring in some unit's
reference-list-typed attribute that are not the name of any existing
unit of the story. -/
def dangling_names (st : StoryState) : List String :=
  ((st.units.map unit_ref_names).flatten).filter (fun v => (get_unit_by_name st.units v).isNone)

/-- The value a matching attribute holds after one `rewrite_feature`
step: the value-level view of the step, used in proofs. -/
def rewrite_value (names : List String) (uname : String) (old_name : Option String)
    (fty : FType) (v : Value) : Value :=
  match fty, v with
  | FType.tList, Value.vList l =>
      (match old_name with
       | some o =>
           if o ≠ "" ∧ o ∈ l then Value.vList (l.map fun x => if x = o then uname else x)
           else Value.vList l
       | none => Value.vList l)
  | FType.tStr, Value.vStr s =>
      if old_name = some s then Value.vStr uname
      else if s = uname ∧ uname ∉ names then Value.vStr uname
      else Value.vStr s
  | _, v => v

/-- The story-state well-formedness the create/edit flows maintain: no
existing unit's name is listed as undefined, and the undefined-name list
holds no duplicates (it models a set). -/
def story_inv (st : StoryState) : Prop :=
  (∀ w ∈ st.units, w.name ∉ st.undefined_names) ∧ st.undefined_names.Nodup

/-! ### Concrete test fixtures (used by witnesses and counterexamples) -/

/-- A `Group` unit's features with the given name, solidarity reason and
member list. -/
def fx_group_features (nm reason : String) (members : List String) : Features :=
  [("name", Value.vStr nm),
   ("Who is part of the group?", Value.vList members),
   ("Reason for solidarity", Value.vStr reason),
   ("Where did the group first meet?", Value.vList [])]

/-- Submitted form: a group named Anna whose member list selects the not
yet existing name Ghost. -/
def fx_fdAnna : FormData :=
  [("name", { text := "Anna", selected := [], newText := "" }),
   ("Who is part of the group?", { text := "", selected := ["Ghost"], newText := "" })]

/-- Submitted form: a group named Ghost with no references. -/
def fx_fdGhost : FormData :=
  [("name", { text := "Ghost", selected := [], newText := "" })]

/-- Submitted form: rename to Robert, keeping a member reference to the
old name Bob. -/
def fx_fdRobert : FormData :=
  [("name", { text := "Robert", selected := [], newText := "" }),
   ("Who is part of the group?", { text := "", selected := ["Bob"], newText := "" })]

/-- Submitted form: rename to Robert with no references. -/
def fx_fdRobertClean : FormData :=
  [("name", { text := "Robert", selected := [], newText := "" })]

/-- Submitted form: a duplicate group named Bob whose member list selects
the not yet existing name Ghost. -/
def fx_fdBobDup : FormData :=
  [("name", { text := "Bob", selected := [], newText := "" }),
   ("Who is part of the group?", { text := "", selected := ["Ghost"], newText := "" })]

/-- Unit fixture: group Anna (id 1) whose member list holds Ghost. -/
def fx_uAnnaGhost : SUnit :=
  { id := 1, unit_type := "Group", name := "Anna", features := fx_group_features "Anna" "" ["Ghost"] }

/-- Unit fixture: group Bravo (id 2) with no references. -/
def fx_uBravo : SUnit :=
  { id := 2, unit_type := "Group", name := "Bravo", features := fx_group_features "Bravo" "" [] }

/-- Story fixture for the undefined-names invariant: Anna references the
dangling name Ghost, and a stale entry Stale sits in `undefined_names`. -/
def fx_stC1 : StoryState :=
  { units := [fx_uAnnaGhost, fx_uBravo], undefined_names := ["Stale"] }

/-- Unit fixture: group Anna (id 1) whose member list holds Bob. -/
def fx_uAnnaBob : SUnit :=
  { id := 1, unit_type := "Group", name := "Anna", features := fx_group_features "Anna" "" ["Bob"] }

/-- Unit fixture: group Bob (id 2) whose member list holds its own name. -/
def fx_uBobSelf : SUnit :=
  { id := 2, unit_type := "Group", name := "Bob", features := fx_group_features "Bob" "" ["Bob"] }

/-- Unit fixture: group Bob (id 2) with no references. -/
def fx_uBob : SUnit :=
  { id := 2, unit_type := "Group", name := "Bob", features := fx_group_features "Bob" "" [] }

/-- Story fixture for the rename counterexample: Anna references Bob, and
Bob's own member list also holds the name Bob. -/
def fx_stC3 : StoryState :=
  { units := [fx_uAnnaBob, fx_uBobSelf], undefined_names := [] }

/-- Story fixture for the rename witness: Anna references Bob, and Bob has
no references of its own. -/
def fx_stC3w : StoryState :=
  { units := [fx_uAnnaBob, fx_uBob], undefined_names := [] }

/-- Story fixture for duplicate rejection: a single group named Bob. -/
def fx_stC4 : StoryState :=
  { units := [{ id := 1, unit_type := "Group", name := "Bob",
                features := fx_group_features "Bob" "" [] }], undefined_names := [] }

/-- Unit fixture: group Anna (id 1) whose solidarity reason is the string
Bob (a reference-typed string attribute in the step-3 sense). -/
def fx_uAnnaReasonBob : SUnit :=
  { id := 1, unit_type := "Group", name := "Anna", features := fx_group_features "Anna" "Bob" [] }

/-- Unit fixture: group Robert (id 2), the renamed unit. -/
def fx_uRobert : SUnit :=
  { id := 2, unit_type := "Group", name := "Robert", features := fx_group_features "Robert" "" [] }

/-- Story fixture for the string-attribute rewrite: Anna's reason string
equals the old name Bob; Robert is the renamed unit. -/
def fx_stC7 : StoryState :=
  { units := [fx_uAnnaReasonBob, fx_uRobert], undefined_names := [] }

/-- Unit fixture for the implementation-agreement witness: Anna references
Bob both in her member list and in her solidarity-reason string. -/
def fx_uAnnaBothBob : SUnit :=
  { id := 1, unit_type := "Group", name := "Anna", features := fx_group_features "Anna" "Bob" ["Bob"] }

/-! ### Dictionary lemmas -/

theorem featureKeys_cons (p : String × Value) (rest : Features) :
    featureKeys (p :: rest) = p.1 :: featureKeys rest := rfl

theorem lookupF_setF_self (fs : Features) (k : String) (v : Value) :
    lookupF (setF fs k v) k = (lookupF fs k).map (fun _ => v) := by
  induction fs with
  | nil => rfl
  | cons p rest ih =>
      by_cases h : p.1 = k
      · simp [setF, lookupF, h]
      · simp [setF, lookupF, h, ih]

theorem lookupF_setF_ne (fs : Features) {k k' : String} (v : Value) (h : k' ≠ k) :
    lookupF (setF fs k v) k' = lookupF fs k' := by
  induction fs with
  | nil => rfl
  | cons p rest ih =>
      by_cases hp : p.1 = k
      · have hk : k ≠ k' := fun hk => h hk.symm
        have hp' : p.1 ≠ k' := by rw [hp]; exact hk
        simp only [setF, if_pos hp]
        show (if k = k' then some v else lookupF (setF rest k v) k') =
          (if p.1 = k' then some p.2 else lookupF rest k')
        rw [if_neg hk, if_neg hp', ih]
      · simp only [setF, if_neg hp]
        show (if p.1 = k' then some p.2 else lookupF (setF rest k v) k') =
          (if p.1 = k' then some p.2 else lookupF rest k')
        by_cases hp' : p.1 = k'
        · rw [if_pos hp', if_pos hp']
        · rw [if_neg hp', if_neg hp', ih]

theorem featureKeys_setF (fs : Features) (k : String) (v : Value) :
    featureKeys (setF fs k v) = featureKeys fs := by
  induction fs with
  | nil => rfl
  | cons p rest ih =>
      simp only [setF, featureKeys_cons]
      by_cases h : p.1 = k
      · rw [if_pos h]
        show k :: featureKeys (setF rest k v) = p.1 :: featureKeys rest
        rw [ih, h]
      · rw [if_neg h]
        show p.1 :: featureKeys (setF rest k v) = p.1 :: featureKeys rest
        rw [ih]

theorem setF_of_not_mem_keys {fs : Features} {k : String} (v : Value)
    (h : k ∉ featureKeys fs) : setF fs k v = fs := by
  induction fs with
  | nil => rfl
  | cons p rest ih =>
      rw [featureKeys_cons] at h
      have h1 : p.1 ≠ k := fun hk => h (by rw [← hk]; exact List.mem_cons_self _ _)
      have h2 : k ∉ featureKeys rest := fun hk => h (List.mem_cons_of_mem _ hk)
      simp only [setF, if_neg h1]
      rw [ih h2]

theorem setF_self {fs : Features} {k : String} {v : Value}
    (hnd : (featureKeys fs).Nodup) (hv : lookupF fs k = some v) : setF fs k v = fs := by
  induction fs with
  | nil => rfl
  | cons p rest ih =>
      obtain ⟨pk, pv⟩ := p
      rw [featureKeys_cons] at hnd
      have hnd1 : pk ∉ featureKeys rest := (List.nodup_cons.mp hnd).1
      have hnd2 : (featureKeys rest).Nodup := (List.nodup_cons.mp hnd).2
      by_cases h : pk = k
      · simp only [lookupF, if_pos h] at hv
        have hval : pv = v := Option.some.inj hv
        simp only [setF, if_pos h]
        rw [setF_of_not_mem_keys _ (h ▸ hnd1), ← h, ← hval]
      · simp only [lookupF, if_neg h] at hv
        simp only [setF, if_neg h]
        rw [ih hnd2 hv]

theorem mem_setF {fs : Features} {k : String} {v : Value} {p : String × Value}
    (h : p ∈ setF fs k v) : p = (k, v) ∨ p ∈ fs := by
  induction fs with
  | nil => simp [setF] at h
  | cons q rest ih =>
      by_cases hq : q.1 = k
      · simp only [setF, if_pos hq, List.mem_cons] at h
        rcases h with h | h
        · exact Or.inl h
        · rcases ih h with h' | h'
          · exact Or.inl h'
          · exact Or.inr (List.mem_cons_of_mem _ h')
      · simp only [setF, if_neg hq, List.mem_cons] at h
        rcases h with h | h
        · exact Or.inr (by simp [h])
        · rcases ih h with h' | h'
          · exact Or.inl h'
          · exact Or.inr (List.mem_cons_of_mem _ h')

/-! ### Lemmas about the undefined-name additions -/

theorem aufv_mem_mono {units : List SUnit} {und : List String} {w : String}
    (vals : List String) (h : w ∈ und) : w ∈ add_undefined_from_values units vals und := by
  induction vals generalizing und with
  | nil => exact h
  | cons v rest ih =>
      simp only [add_undefined_from_values]
      split
      · exact ih (List.mem_append_left _ h)
      · exact ih h

theorem aufv_mem {units : List SUnit} {w : String} (vals : List String) (und : List String)
    (h : w ∈ add_undefined_from_values units vals und) :
    w ∈ und ∨ (w ∈ vals ∧ get_unit_by_name units w = none) := by
  induction vals generalizing und with
  | nil => exact Or.inl h
  | cons v rest ih =>
      simp only [add_undefined_from_values] at h
      split at h
      · rename_i hcond
        rcases ih _ h with h' | h'
        · rcases List.mem_append.mp h' with h'' | h''
          · exact Or.inl h''
          · simp at h''
            subst h''
            exact Or.inr ⟨List.mem_cons_self _ _, Option.isNone_iff_eq_none.mp hcond.1⟩
        · exact Or.inr ⟨List.mem_cons_of_mem _ h'.1, h'.2⟩
      · rcases ih _ h with h' | h'
        · exact Or.inl h'
        · exact Or.inr ⟨List.mem_cons_of_mem _ h'.1, h'.2⟩

theorem aufv_complete {units : List SUnit} {w : String} (vals : List String) (und : List String)
    (hw : w ∈ vals) (hdangling : get_unit_by_name units w = none) :
    w ∈ add_undefined_from_values units vals und := by
  induction vals generalizing und with
  | nil => simp at hw
  | cons v rest ih =>
      simp only [add_undefined_from_values]
      rcases List.mem_cons.mp hw with h | h
      · subst h
        by_cases hu : w ∈ und
        · have : ¬ ((get_unit_by_name units w).isNone ∧ w ∉ und) := fun hc => hc.2 hu
          rw [if_neg this]
          exact aufv_mem_mono rest hu
        · rw [if_pos ⟨Option.isNone_iff_eq_none.mpr hdangling, hu⟩]
          exact aufv_mem_mono rest (List.mem_append_right _ (by simp))
      · split
        · exact ih _ h
        · exact ih _ h

theorem aufv_nodup {units : List SUnit} (vals : List String) (und : List String)
    (h : und.Nodup) : (add_undefined_from_values units vals und).Nodup := by
  induction vals generalizing und with
  | nil => exact h
  | cons v rest ih =>
      simp only [add_undefined_from_values]
      split
      · rename_i hcond
        exact ih _ (by simp [List.nodup_append, h, hcond.2])
      · exact ih _ h

theorem aufv_cases {units : List SUnit} {und0 : List String} {v0 : String}
    (vals : List String) (acc : List String)
    (hvals : ∀ w ∈ vals, get_unit_by_name units w = none → (w ∈ und0 ∨ w = v0))
    (hacc : acc = und0 ∨ (v0 ∉ und0 ∧ acc = und0 ++ [v0])) :
    add_undefined_from_values units vals acc = und0 ∨
      (v0 ∉ und0 ∧ add_undefined_from_values units vals acc = und0 ++ [v0]) := by
  induction vals generalizing acc with
  | nil => exact hacc
  | cons v rest ih =>
      simp only [add_undefined_from_values]
      split
      · rename_i hcond
        have hdang : get_unit_by_name units v = none := Option.isNone_iff_eq_none.mp hcond.1
        rcases hvals v (List.mem_cons_self _ _) hdang with hv | hv
        · exfalso
          rcases hacc with h | h
          · exact hcond.2 (h ▸ hv)
          · exact hcond.2 (h.2 ▸ List.mem_append_left _ hv)
        · subst hv
          rcases hacc with h | h
          · subst h
            exact ih _ (fun w hw hd => hvals w (List.mem_cons_of_mem _ hw) hd)
              (Or.inr ⟨hcond.2, rfl⟩)
          · exact absurd (h.2 ▸ List.mem_append_right _ (by simp)) hcond.2
      · exact ih _ (fun w hw hd => hvals w (List.mem_cons_of_mem _ hw) hd) hacc

theorem auff_mem_mono {units : List SUnit} {und : List String} {w : String}
    (feats : Features) (h : w ∈ und) : w ∈ add_undefined_from_features units feats und := by
  induction feats generalizing und with
  | nil => exact h
  | cons p rest ih =>
      match p with
      | (f, Value.vList vals) => exact ih (aufv_mem_mono vals h)
      | (f, Value.vStr s) => exact ih h
      | (f, Value.vBool b) => exact ih h
      | (f, Value.vInt n) => exact ih h
      | (f, Value.vFloat r) => exact ih h

theorem auff_mem {units : List SUnit} {w : String} (feats : Features) (und : List String)
    (h : w ∈ add_undefined_from_features units feats und) :
    w ∈ und ∨ ((∃ f l, (f, Value.vList l) ∈ feats ∧ w ∈ l) ∧ get_unit_by_name units w = none) := by
  induction feats generalizing und with
  | nil => exact Or.inl h
  | cons p rest ih =>
      match p with
      | (f, Value.vList vals) =>
          rcases ih _ h with h' | h'
          · rcases aufv_mem vals _ h' with h'' | h''
            · exact Or.inl h''
            · exact Or.inr ⟨⟨f, vals, by simp, h''.1⟩, h''.2⟩
          · obtain ⟨⟨g, l, hgl, hwl⟩, hd⟩ := h'
            exact Or.inr ⟨⟨g, l, List.mem_cons_of_mem _ hgl, hwl⟩, hd⟩
      | (f, Value.vStr s) =>
          rcases ih _ h with h' | h'
          · exact Or.inl h'
          · obtain ⟨⟨g, l, hgl, hwl⟩, hd⟩ := h'
            exact Or.inr ⟨⟨g, l, List.mem_cons_of_mem _ hgl, hwl⟩, hd⟩
      | (f, Value.vBool b) =>
          rcases ih _ h with h' | h'
          · exact Or.inl h'
          · obtain ⟨⟨g, l, hgl, hwl⟩, hd⟩ := h'
            exact Or.inr ⟨⟨g, l, List.mem_cons_of_mem _ hgl, hwl⟩, hd⟩
      | (f, Value.vInt n) =>
          rcases ih _ h with h' | h'
          · exact Or.inl h'
          · obtain ⟨⟨g, l, hgl, hwl⟩, hd⟩ := h'
            exact Or.inr ⟨⟨g, l, List.mem_cons_of_mem _ hgl, hwl⟩, hd⟩
      | (f, Value.vFloat r) =>
          rcases ih _ h with h' | h'
          · exact Or.inl h'
          · obtain ⟨⟨g, l, hgl, hwl⟩, hd⟩ := h'
            exact Or.inr ⟨⟨g, l, List.mem_cons_of_mem _ hgl, hwl⟩, hd⟩

theorem auff_complete {units : List SUnit} {w f : String} {l : List String}
    (feats : Features) (und : List String)
    (hfl : (f, Value.vList l) ∈ feats) (hw : w ∈ l)
    (hdangling : get_unit_by_name units w = none) :
    w ∈ add_undefined_from_features units feats und := by
  induction feats generalizing und with
  | nil => simp at hfl
  | cons p rest ih =>
      rcases List.mem_cons.mp hfl with h | h
      · subst h
        exact auff_mem_mono rest (aufv_complete l und hw hdangling)
      · match p with
        | (g, Value.vList vals) => exact ih _ h
        | (g, Value.vStr s) => exact ih _ h
        | (g, Value.vBool b) => exact ih _ h
        | (g, Value.vInt n) => exact ih _ h
        | (g, Value.vFloat r) => exact ih _ h

theorem auff_nodup {units : List SUnit} (feats : Features) (und : List String)
    (h : und.Nodup) : (add_undefined_from_features units feats und).Nodup := by
  induction feats generalizing und with
  | nil => exact h
  | cons p rest ih =>
      match p with
      | (f, Value.vList vals) => exact ih _ (aufv_nodup vals _ h)
      | (f, Value.vStr s) => exact ih _ h
      | (f, Value.vBool b) => exact ih _ h
      | (f, Value.vInt n) => exact ih _ h
      | (f, Value.vFloat r) => exact ih _ h

theorem auff_cases {units : List SUnit} {und0 : List String} {v0 : String}
    (feats : Features) (acc : List String)
    (hvals : ∀ g l w, (g, Value.vList l) ∈ feats → w ∈ l →
      get_unit_by_name units w = none → (w ∈ und0 ∨ w = v0))
    (hacc : acc = und0 ∨ (v0 ∉ und0 ∧ acc = und0 ++ [v0])) :
    add_undefined_from_features units feats acc = und0 ∨
      (v0 ∉ und0 ∧ add_undefined_from_features units feats acc = und0 ++ [v0]) := by
  induction feats generalizing acc with
  | nil => exact hacc
  | cons p rest ih =>
      match p with
      | (f, Value.vList vals) =>
          exact ih _ (fun g l w hgl hw hd => hvals g l w (List.mem_cons_of_mem _ hgl) hw hd)
            (aufv_cases vals acc (fun w hw hd => hvals f vals w (by simp) hw hd) hacc)
      | (f, Value.vStr s) =>
          exact ih _ (fun g l w hgl hw hd => hvals g l w (List.mem_cons_of_mem _ hgl) hw hd) hacc
      | (f, Value.vBool b) =>
          exact ih _ (fun g l w hgl hw hd => hvals g l w (List.mem_cons_of_mem _ hgl) hw hd) hacc
      | (f, Value.vInt n) =>
          exact ih _ (fun g l w hgl hw hd => hvals g l w (List.mem_cons_of_mem _ hgl) hw hd) hacc
      | (f, Value.vFloat r) =>
          exact ih _ (fun g l w hgl hw hd => hvals g l w (List.mem_cons_of_mem _ hgl) hw hd) hacc

/-! ### Rewrite-step lemmas -/

theorem rewrite_feature_shape (names : List String) (uname : String)
    (old_name : Option String) (g : String) (fty : FType) (fs : Features) :
    rewrite_feature names uname old_name g fty fs = fs ∨
      ∃ v', rewrite_feature names uname old_name g fty fs = setF fs g v' := by
  unfold rewrite_feature
  repeat' split
  all_goals first
    | exact Or.inl rfl
    | exact Or.inr ⟨_, rfl⟩

theorem featureKeys_rewrite_feature (names : List String) (uname : String)
    (old_name : Option String) (g : String) (fty : FType) (fs : Features) :
    featureKeys (rewrite_feature names uname old_name g fty fs) = featureKeys fs := by
  rcases rewrite_feature_shape names uname old_name g fty fs with h | ⟨v', h⟩
  · rw [h]
  · rw [h, featureKeys_setF]

theorem lookupF_rewrite_feature_ne {g g' : String} (names : List String) (uname : String)
    (old_name : Option String) (fty : FType) (fs : Features) (h : g' ≠ g) :
    lookupF (rewrite_feature names uname old_name g fty fs) g' = lookupF fs g' := by
  rcases rewrite_feature_shape names uname old_name g fty fs with hs | ⟨v', hs⟩
  · rw [hs]
  · rw [hs, lookupF_setF_ne _ _ h]

theorem rewrite_feature_of_lookup_none {fs : Features} {g : String}
    (names : List String) (uname : String) (old_name : Option String) (fty : FType)
    (hl : lookupF fs g = none) :
    rewrite_feature names uname old_name g fty fs = fs := by
  cases fty <;> simp [rewrite_feature, hl]

theorem rewrite_feature_canonical {fs : Features} {g : String} {v : Value}
    (names : List String) (uname : String) (old_name : Option String) (fty : FType)
    (hnd : (featureKeys fs).Nodup) (hl : lookupF fs g = some v) :
    rewrite_feature names uname old_name g fty fs =
      setF fs g (rewrite_value names uname old_name fty v) := by
  cases fty with
  | tList =>
      cases v with
      | vList l =>
          cases old_name with
          | none =>
              simp only [rewrite_feature, rewrite_value, hl]
              exact (setF_self hnd hl).symm
          | some o =>
              by_cases hc : o ≠ "" ∧ o ∈ l
              · simp only [rewrite_feature, rewrite_value, hl, if_pos hc]
              · simp only [rewrite_feature, rewrite_value, hl, if_neg hc]
                exact (setF_self hnd hl).symm
      | vStr s =>
          simp only [rewrite_feature, rewrite_value, hl]
          exact (setF_self hnd hl).symm
      | vBool b =>
          simp only [rewrite_feature, rewrite_value, hl]
          exact (setF_self hnd hl).symm
      | vInt n =>
          simp only [rewrite_feature, rewrite_value, hl]
          exact (setF_self hnd hl).symm
      | vFloat r =>
          simp only [rewrite_feature, rewrite_value, hl]
          exact (setF_self hnd hl).symm
  | tStr =>
      cases v with
      | vStr s =>
          by_cases h1 : old_name = some s
          · simp only [rewrite_feature, rewrite_value, hl, if_pos h1]
          · by_cases h2 : s = uname ∧ uname ∉ names
            · simp only [rewrite_feature, rewrite_value, hl, if_neg h1, if_pos h2]
            · simp only [rewrite_feature, rewrite_value, hl, if_neg h1, if_neg h2]
              exact (setF_self hnd hl).symm
      | vList l =>
          simp only [rewrite_feature, rewrite_value, hl]
          exact (setF_self hnd hl).symm
      | vBool b =>
          simp only [rewrite_feature, rewrite_value, hl]
          exact (setF_self hnd hl).symm
      | vInt n =>
          simp only [rewrite_feature, rewrite_value, hl]
          exact (setF_self hnd hl).symm
      | vFloat r =>
          simp only [rewrite_feature, rewrite_value, hl]
          exact (setF_self hnd hl).symm
  | tBool =>
      cases v <;> simp only [rewrite_feature, rewrite_value, hl] <;>
        exact (setF_self hnd hl).symm
  | tInt =>
      cases v <;> simp only [rewrite_feature, rewrite_value, hl] <;>
        exact (setF_self hnd hl).symm
  | tFloat =>
      cases v <;> simp only [rewrite_feature, rewrite_value, hl] <;>
        exact (setF_self hnd hl).symm

theorem rewrite_value_uname (names : List String) (uname : String) (old_name : Option String) :
    rewrite_value names uname old_name FType.tStr (Value.vStr uname) = Value.vStr uname := by
  simp only [rewrite_value]
  split
  · rfl
  · split <;> rfl

theorem rewrite_value_idem (names : List String) (uname : String) (old_name : Option String)
    (fty : FType) (v : Value) :
    rewrite_value names uname old_name fty (rewrite_value names uname old_name fty v) =
      rewrite_value names uname old_name fty v := by
  cases fty with
  | tList =>
      cases v with
      | vList l =>
          cases old_name with
          | none => simp [rewrite_value]
          | some o =>
              by_cases hc : o ≠ "" ∧ o ∈ l
              · simp only [rewrite_value, if_pos hc]
                by_cases ho : o = uname
                · have hid : l.map (fun x => if x = o then uname else x) = l := by
                    rw [show (fun x => if x = o then uname else x) = fun x => x by
                      funext x
                      by_cases hx : x = o
                      · rw [if_pos hx, ho.symm, hx]
                      · rw [if_neg hx]]
                    exact List.map_id l
                  rw [hid]
                  simp only [rewrite_value, if_pos hc, hid]
                · have ho' : ¬ (o ≠ "" ∧ o ∈ l.map (fun x => if x = o then uname else x)) := by
                    rintro ⟨-, hmem⟩
                    rcases List.mem_map.mp hmem with ⟨x, hx, hfx⟩
                    by_cases hxo : x = o
                    · rw [if_pos hxo] at hfx
                      exact ho hfx.symm
                    · rw [if_neg hxo] at hfx
                      exact hxo hfx
                  simp only [rewrite_value, if_neg ho']
              · simp only [rewrite_value, if_neg hc]
      | vStr s => simp [rewrite_value]
      | vBool b => simp [rewrite_value]
      | vInt n => simp [rewrite_value]
      | vFloat r => simp [rewrite_value]
  | tStr =>
      cases v with
      | vStr s =>
          by_cases h1 : old_name = some s
          · simp only [rewrite_value, if_pos h1]
            split
            · rfl
            · split <;> rfl
          · by_cases h2 : s = uname ∧ uname ∉ names
            · simp only [rewrite_value, if_neg h1, if_pos h2]
              split
              · rfl
              · split <;> rfl
            · simp only [rewrite_value, if_neg h1, if_neg h2]
      | vList l => simp [rewrite_value]
      | vBool b => simp [rewrite_value]
      | vInt n => simp [rewrite_value]
      | vFloat r => simp [rewrite_value]
  | tBool => cases v <;> simp [rewrite_value]
  | tInt => cases v <;> simp [rewrite_value]
  | tFloat => cases v <;> simp [rewrite_value]

/-! ### Schema-fold lemmas -/

theorem featureKeys_rewrite_features (names : List String) (uname : String)
    (old_name : Option String) (schema : List (String × FType)) (fs : Features) :
    featureKeys (rewrite_features names uname old_name schema fs) = featureKeys fs := by
  induction schema generalizing fs with
  | nil => rfl
  | cons p rest ih =>
      obtain ⟨g, ty⟩ := p
      simp only [rewrite_features]
      rw [ih, featureKeys_rewrite_feature]

theorem lookupF_rewrite_features_not_mem {g : String} (names : List String) (uname : String)
    (old_name : Option String) (schema : List (String × FType)) (fs : Features)
    (h : g ∉ schema.map Prod.fst) :
    lookupF (rewrite_features names uname old_name schema fs) g = lookupF fs g := by
  induction schema generalizing fs with
  | nil => rfl
  | cons p rest ih =>
      obtain ⟨g', ty⟩ := p
      simp only [List.map_cons, List.mem_cons] at h
      push_neg at h
      simp only [rewrite_features]
      rw [ih _ h.2, lookupF_rewrite_feature_ne _ _ _ _ _ h.1]

theorem lookupF_rewrite_features_of_mem {g : String} {ty : FType}
    (names : List String) (uname : String) (old_name : Option String)
    (schema : List (String × FType)) (fs : Features)
    (hnds : (schema.map Prod.fst).Nodup) (hmem : (g, ty) ∈ schema)
    (hndf : (featureKeys fs).Nodup) :
    lookupF (rewrite_features names uname old_name schema fs) g =
      (lookupF fs g).map (rewrite_value names uname old_name ty) := by
  induction schema generalizing fs with
  | nil => simp at hmem
  | cons p rest ih =>
      obtain ⟨g', ty'⟩ := p
      simp only [List.map_cons, List.nodup_cons] at hnds
      rcases List.mem_cons.mp hmem with h | h
      · have hg : g = g' := congrArg Prod.fst h
        have hty : ty = ty' := congrArg Prod.snd h
        subst hg
        subst hty
        simp only [rewrite_features]
        rw [lookupF_rewrite_features_not_mem _ _ _ _ _ hnds.1]
        cases hl : lookupF fs g with
        | none =>
            rw [rewrite_feature_of_lookup_none _ _ _ _ hl, hl]
            rfl
        | some v =>
            rw [rewrite_feature_canonical _ _ _ _ hndf hl, lookupF_setF_self, hl]
            rfl
      · have hgg : g' ≠ g := by
          intro he
          subst he
          exact hnds.1 (List.mem_map.mpr ⟨(g', ty), h, rfl⟩)
        simp only [rewrite_features]
        rw [ih _ hnds.2 h (by rw [featureKeys_rewrite_feature]; exact hndf),
          lookupF_rewrite_feature_ne _ _ _ _ _ (Ne.symm hgg)]

theorem rewrite_features_idem (names : List String) (uname : String)
    (old_name : Option String) (schema : List (String × FType)) (fs : Features)
    (hnds : (schema.map Prod.fst).Nodup) (hndf : (featureKeys fs).Nodup) :
    rewrite_features names uname old_name schema
        (rewrite_features names uname old_name schema fs) =
      rewrite_features names uname old_name schema fs := by
  induction schema generalizing fs with
  | nil => rfl
  | cons p rest ih =>
      obtain ⟨g, ty⟩ := p
      simp only [List.map_cons, List.nodup_cons] at hnds
      simp only [rewrite_features]
      cases hl : lookupF fs g with
      | none =>
          have hA : rewrite_feature names uname old_name g ty fs = fs :=
            rewrite_feature_of_lookup_none _ _ _ _ hl
          rw [hA]
          have hB : lookupF (rewrite_features names uname old_name rest fs) g = none := by
            rw [lookupF_rewrite_features_not_mem _ _ _ _ _ hnds.1, hl]
          rw [rewrite_feature_of_lookup_none _ _ _ _ hB]
          exact ih _ hnds.2 hndf
      | some v =>
          have hA : rewrite_feature names uname old_name g ty fs =
              setF fs g (rewrite_value names uname old_name ty v) :=
            rewrite_feature_canonical _ _ _ _ hndf hl
          have hkeysA : (featureKeys (rewrite_feature names uname old_name g ty fs)).Nodup := by
            rw [featureKeys_rewrite_feature]; exact hndf
          have hlookA : lookupF (rewrite_feature names uname old_name g ty fs) g =
              some (rewrite_value names uname old_name ty v) := by
            rw [hA, lookupF_setF_self, hl]
            rfl
          have hlookB : lookupF (rewrite_features names uname old_name rest
              (rewrite_feature names uname old_name g ty fs)) g =
              some (rewrite_value names uname old_name ty v) := by
            rw [lookupF_rewrite_features_not_mem _ _ _ _ _ hnds.1, hlookA]
          have hkeysB : (featureKeys (rewrite_features names uname old_name rest
              (rewrite_feature names uname old_name g ty fs))).Nodup := by
            rw [featureKeys_rewrite_features]; exact hkeysA
          rw [rewrite_feature_canonical _ _ _ _ hkeysB hlookB, rewrite_value_idem,
            setF_self hkeysB hlookB]
          exact ih _ hnds.2 hkeysA

/-! ### Facts about the built-in schemas -/

theorem feature_schema_of_keys_nodup (tag : String) :
    ((feature_schema_of tag).map Prod.fst).Nodup := by
  unfold feature_schema_of
  split <;> decide

theorem feature_schema_of_head (tag : String) :
    ∃ rest, feature_schema_of tag = ("name", FType.tStr) :: rest := by
  unfold feature_schema_of
  split <;> exact ⟨_, rfl⟩

/-! ### Per-unit rewrite lemmas -/

theorem rewrite_unit_id (names : List String) (uname : String) (old_name : Option String)
    (w : SUnit) : (rewrite_unit names uname old_name w).id = w.id := rfl

theorem rewrite_unit_name (names : List String) (uname : String) (old_name : Option String)
    (w : SUnit) : (rewrite_unit names uname old_name w).name = w.name := rfl

theorem rewrite_unit_idem (names : List String) (uname : String) (old_name : Option String)
    (w : SUnit) (hndf : (featureKeys w.features).Nodup) :
    rewrite_unit names uname old_name (rewrite_unit names uname old_name w) =
      rewrite_unit names uname old_name w := by
  cases w with
  | mk i ty nm fs =>
      simp only [rewrite_unit]
      congr 1
      exact rewrite_features_idem _ _ _ _ _ (feature_schema_of_keys_nodup ty) hndf

/-! ### Story-level lemmas -/

theorem storyState_ext {a b : StoryState} (hu : a.units = b.units)
    (hn : a.undefined_names = b.undefined_names) : a = b := by
  cases a
  cases b
  simp_all

theorem get_unit_by_name_eq_none_iff (units : List SUnit) (v : String) :
    get_unit_by_name units v = none ↔ v ∉ units.map SUnit.name := by
  simp [get_unit_by_name, List.find?_eq_none]

theorem aufv_congr_units {units1 units2 : List SUnit}
    (hsame : ∀ v, get_unit_by_name units1 v = none ↔ get_unit_by_name units2 v = none)
    (vals : List String) (und : List String) :
    add_undefined_from_values units1 vals und = add_undefined_from_values units2 vals und := by
  induction vals generalizing und with
  | nil => rfl
  | cons v rest ih =>
      simp only [add_undefined_from_values]
      have hc : ((get_unit_by_name units1 v).isNone ∧ v ∉ und) ↔
          ((get_unit_by_name units2 v).isNone ∧ v ∉ und) := by
        rw [Option.isNone_iff_eq_none, Option.isNone_iff_eq_none, hsame v]
      by_cases h : (get_unit_by_name units1 v).isNone ∧ v ∉ und
      · rw [if_pos h, if_pos (hc.mp h)]
        exact ih _
      · rw [if_neg h, if_neg (fun hx => h (hc.mpr hx))]
        exact ih _

theorem auff_congr_units {units1 units2 : List SUnit}
    (hsame : ∀ v, get_unit_by_name units1 v = none ↔ get_unit_by_name units2 v = none)
    (feats : Features) (und : List String) :
    add_undefined_from_features units1 feats und = add_undefined_from_features units2 feats und := by
  induction feats generalizing und with
  | nil => rfl
  | cons p rest ih =>
      match p with
      | (f, Value.vList vals) =>
          simp only [add_undefined_from_features]
          rw [aufv_congr_units hsame]
          exact ih _
      | (f, Value.vStr s) => exact ih _
      | (f, Value.vBool b) => exact ih _
      | (f, Value.vInt n) => exact ih _
      | (f, Value.vFloat r) => exact ih _

theorem urwnu_units_map_name (u : SUnit) (old_name : Option String) (st : StoryState) :
    (update_references_with_new_unit u old_name st).units.map SUnit.name =
      st.units.map SUnit.name := by
  simp only [update_references_with_new_unit, List.map_map]
  exact List.map_congr_left (fun w hw => by
    by_cases h : w.id = u.id
    · simp [h]
    · simp [h, rewrite_unit_name])

theorem urwnu_get_none_iff (u : SUnit) (old_name : Option String) (st : StoryState)
    (v : String) :
    get_unit_by_name (update_references_with_new_unit u old_name st).units v = none ↔
      get_unit_by_name st.units v = none := by
  rw [get_unit_by_name_eq_none_iff, get_unit_by_name_eq_none_iff, urwnu_units_map_name]

theorem urwnu_undefined_eq (u : SUnit) (old_name : Option String) (st : StoryState) :
    (update_references_with_new_unit u old_name st).undefined_names =
      (if u.name ∈ add_undefined_from_features st.units u.features st.undefined_names then
        (add_undefined_from_features st.units u.features st.undefined_names).erase u.name
       else add_undefined_from_features st.units u.features st.undefined_names) := rfl

theorem urwnu_mem_undefined_of_dangling {st : StoryState} {u : SUnit}
    (old_name : Option String) (v f : String) (l : List String)
    (hu : u ∈ st.units) (hfl : (f, Value.vList l) ∈ u.features) (hvl : v ∈ l)
    (hd : get_unit_by_name st.units v = none) :
    v ∈ (update_references_with_new_unit u old_name st).undefined_names := by
  have hv : v ∈ add_undefined_from_features st.units u.features st.undefined_names :=
    auff_complete _ _ hfl hvl hd
  have hne : v ≠ u.name := by
    intro he
    subst he
    rw [get_unit_by_name_eq_none_iff] at hd
    exact hd (List.mem_map.mpr ⟨u, hu, rfl⟩)
  rw [urwnu_undefined_eq]
  split
  · exact (List.mem_erase_of_ne hne).mpr hv
  · exact hv

theorem urwnu_name_not_mem_undefined {st : StoryState} (u : SUnit) (old_name : Option String)
    (hnd : st.undefined_names.Nodup) :
    u.name ∉ (update_references_with_new_unit u old_name st).undefined_names := by
  have h1 : (add_undefined_from_features st.units u.features st.undefined_names).Nodup :=
    auff_nodup _ _ hnd
  rw [urwnu_undefined_eq]
  split
  · intro hc
    exact ((h1.mem_erase_iff).mp hc).1 rfl
  · rename_i hmem
    exact hmem

theorem urwnu_undefined_nodup {st : StoryState} (u : SUnit) (old_name : Option String)
    (hnd : st.undefined_names.Nodup) :
    (update_references_with_new_unit u old_name st).undefined_names.Nodup := by
  have h1 : (add_undefined_from_features st.units u.features st.undefined_names).Nodup :=
    auff_nodup _ _ hnd
  rw [urwnu_undefined_eq]
  split
  · exact h1.erase _
  · exact h1

theorem urwnu_mem_undefined {st : StoryState} {u : SUnit} {v : String}
    (old_name : Option String)
    (h : v ∈ (update_references_with_new_unit u old_name st).undefined_names) :
    v ∈ st.undefined_names ∨ get_unit_by_name st.units v = none := by
  rw [urwnu_undefined_eq] at h
  have hv : v ∈ add_undefined_from_features st.units u.features st.undefined_names := by
    by_cases hm : u.name ∈ add_undefined_from_features st.units u.features st.undefined_names
    · rw [if_pos hm] at h
      exact List.erase_subset _ _ h
    · rw [if_neg hm] at h
      exact h
  rcases auff_mem _ _ hv with h' | h'
  · exact Or.inl h'
  · exact Or.inr h'.2

theorem urwnu_idem (u : SUnit) (old_name : Option String) (st : StoryState)
    (h1 : st.undefined_names.Nodup)
    (h2 : ∀ w ∈ st.units, (featureKeys w.features).Nodup) :
    update_references_with_new_unit u old_name (update_references_with_new_unit u old_name st) =
      update_references_with_new_unit u old_name st := by
  have hn1 : (update_references_with_new_unit u old_name st).units.map (fun w => w.name) =
      st.units.map (fun w => w.name) := urwnu_units_map_name u old_name st
  apply storyState_ext
  · show (update_references_with_new_unit u old_name st).units.map
        (fun w => if w.id = u.id then w
          else rewrite_unit ((update_references_with_new_unit u old_name st).units.map
            (fun w => w.name)) u.name old_name w) =
      (update_references_with_new_unit u old_name st).units
    rw [hn1]
    show (st.units.map (fun w => if w.id = u.id then w
        else rewrite_unit (st.units.map (fun w => w.name)) u.name old_name w)).map _ =
      st.units.map (fun w => if w.id = u.id then w
        else rewrite_unit (st.units.map (fun w => w.name)) u.name old_name w)
    rw [List.map_map]
    apply List.map_congr_left
    intro w hw
    simp only [Function.comp]
    by_cases h : w.id = u.id
    · simp only [if_pos h]
    · simp only [if_neg h]
      have hid : (rewrite_unit (st.units.map (fun w => w.name)) u.name old_name w).id = w.id :=
        rewrite_unit_id _ _ _ _
      rw [if_neg (by rw [hid]; exact h)]
      exact rewrite_unit_idem _ _ _ _ (h2 w hw)
  · rw [urwnu_undefined_eq u old_name (update_references_with_new_unit u old_name st)]
    have hcong : add_undefined_from_features (update_references_with_new_unit u old_name st).units
        u.features (update_references_with_new_unit u old_name st).undefined_names =
        add_undefined_from_features st.units u.features
          (update_references_with_new_unit u old_name st).undefined_names :=
      auff_congr_units (fun v => urwnu_get_none_iff u old_name st v) _ _
    have hnotmem : u.name ∉ (update_references_with_new_unit u old_name st).undefined_names :=
      urwnu_name_not_mem_undefined u old_name h1
    have hvals : ∀ g l w, (g, Value.vList l) ∈ u.features → w ∈ l →
        get_unit_by_name st.units w = none →
        (w ∈ (update_references_with_new_unit u old_name st).undefined_names ∨ w = u.name) := by
      intro g l w hgl hwl hd
      by_cases hwn : w = u.name
      · exact Or.inr hwn
      · have hS1 : w ∈ add_undefined_from_features st.units u.features st.undefined_names :=
          auff_complete _ _ hgl hwl hd
        refine Or.inl ?_
        rw [urwnu_undefined_eq]
        split
        · exact (List.mem_erase_of_ne hwn).mpr hS1
        · exact hS1
    rcases auff_cases u.features (update_references_with_new_unit u old_name st).undefined_names
        hvals (Or.inl rfl) with hcase | hcase
    · rw [hcong, hcase, if_neg hnotmem]
    · rw [hcong, hcase.2,
        if_pos (List.mem_append_right _ (List.mem_cons_self _ _)),
        List.erase_append_right _ hnotmem, List.erase_cons_head, List.append_nil]

/-! ### Form-processing lemmas -/

theorem pfsf_units (fd : FormData) (schema : List (String × FType)) (acc : PfsResult) :
    (process_form_submission_from fd schema acc).st.units = acc.st.units := by
  induction schema generalizing acc with
  | nil => rfl
  | cons p rest ih =>
      obtain ⟨fname, fty⟩ := p
      simp only [process_form_submission_from]
      rw [ih]
      repeat' split
      all_goals rfl

theorem pfsf_undefined_mono (fd : FormData) (schema : List (String × FType)) (acc : PfsResult)
    {v : String} (h : v ∈ acc.st.undefined_names) :
    v ∈ (process_form_submission_from fd schema acc).st.undefined_names := by
  induction schema generalizing acc with
  | nil => exact h
  | cons p rest ih =>
      obtain ⟨fname, fty⟩ := p
      simp only [process_form_submission_from]
      refine ih _ ?_
      repeat' split
      all_goals first
        | exact h
        | exact aufv_mem_mono _ h

theorem pfsf_undefined_mem (fd : FormData) (schema : List (String × FType)) (acc : PfsResult)
    {v : String} (h : v ∈ (process_form_submission_from fd schema acc).st.undefined_names) :
    v ∈ acc.st.undefined_names ∨ get_unit_by_name acc.st.units v = none := by
  induction schema generalizing acc with
  | nil => exact Or.inl h
  | cons p rest ih =>
      obtain ⟨fname, fty⟩ := p
      simp only [process_form_submission_from] at h
      rcases ih _ h with h1 | h1
      · revert h1
        repeat' split
        all_goals intro h1
        all_goals
          first
            | exact Or.inl h1
            | (rcases aufv_mem _ _ h1 with h2 | h2
               · exact Or.inl h2
               · exact Or.inr h2.2)
      · revert h1
        repeat' split
        all_goals intro h1
        all_goals exact Or.inr h1

theorem pfsf_undefined_nodup (fd : FormData) (schema : List (String × FType)) (acc : PfsResult)
    (h : acc.st.undefined_names.Nodup) :
    (process_form_submission_from fd schema acc).st.undefined_names.Nodup := by
  induction schema generalizing acc with
  | nil => exact h
  | cons p rest ih =>
      obtain ⟨fname, fty⟩ := p
      simp only [process_form_submission_from]
      refine ih _ ?_
      repeat' split
      all_goals first
        | exact h
        | exact aufv_nodup _ _ h

theorem pfs_units (schema : List (String × FType)) (fd : FormData) (st : StoryState) :
    (process_form_submission schema fd st).st.units = st.units :=
  pfsf_units fd schema _

theorem pfs_undefined_mono (schema : List (String × FType)) (fd : FormData) (st : StoryState)
    {v : String} (h : v ∈ st.undefined_names) :
    v ∈ (process_form_submission schema fd st).st.undefined_names :=
  pfsf_undefined_mono fd schema _ h

theorem pfs_undefined_mem (schema : List (String × FType)) (fd : FormData) (st : StoryState)
    {v : String} (h : v ∈ (process_form_submission schema fd st).st.undefined_names) :
    v ∈ st.undefined_names ∨ get_unit_by_name st.units v = none :=
  pfsf_undefined_mem fd schema _ h

theorem pfs_undefined_nodup (schema : List (String × FType)) (fd : FormData) (st : StoryState)
    (h : st.undefined_names.Nodup) :
    (process_form_submission schema fd st).st.undefined_names.Nodup :=
  pfsf_undefined_nodup fd schema _ h

theorem pfs_inv (schema : List (String × FType)) (fd : FormData) (st : StoryState)
    (h : story_inv st) : story_inv (process_form_submission schema fd st).st := by
  constructor
  · intro w hw hc
    rw [pfs_units] at hw
    rcases pfs_undefined_mem schema fd st hc with h' | h'
    · exact h.1 w hw h'
    · rw [get_unit_by_name_eq_none_iff] at h'
      exact h' (List.mem_map.mpr ⟨w, hw, rfl⟩)
  · exact pfs_undefined_nodup schema fd st h.2

/-! ### Invariant preservation -/

theorem urwnu_inv (u : SUnit) (old_name : Option String) (st : StoryState)
    (hnd : st.undefined_names.Nodup)
    (hw : ∀ w ∈ st.units, w.name ∉ st.undefined_names ∨ w.name = u.name) :
    story_inv (update_references_with_new_unit u old_name st) := by
  constructor
  · intro w' hw'
    simp only [update_references_with_new_unit, List.mem_map] at hw'
    obtain ⟨w, hw0, rfl⟩ := hw'
    have hname : (if w.id = u.id then w
        else rewrite_unit (st.units.map (fun w => w.name)) u.name old_name w).name = w.name := by
      split
      · rfl
      · exact rewrite_unit_name _ _ _ _
    rw [hname]
    by_cases hn : w.name = u.name
    · rw [hn]
      exact urwnu_name_not_mem_undefined u old_name hnd
    · intro hc
      rcases urwnu_mem_undefined old_name hc with h | h
      · rcases hw w hw0 with h' | h'
        · exact h' h
        · exact hn h'
      · rw [get_unit_by_name_eq_none_iff] at h
        exact h (List.mem_map.mpr ⟨w, hw0, rfl⟩)
  · exact urwnu_undefined_nodup u old_name hnd

theorem add_unit_save_inv (unit_type : String) (fd : FormData) (st : StoryState)
    (h : story_inv st) : story_inv (add_unit_save unit_type fd st).st := by
  simp only [add_unit_save]
  repeat' split
  all_goals first
    | exact pfs_inv _ fd st h
    | (apply urwnu_inv
       · exact (pfs_inv _ fd st h).2
       · intro w hw
         rcases List.mem_append.mp hw with h' | h'
         · exact Or.inl ((pfs_inv _ fd st h).1 w h')
         · simp at h'
           subst h'
           exact Or.inr rfl)

theorem edit_unit_save_inv (unit_name : String) (fd : FormData) (st : StoryState)
    (h : story_inv st) : story_inv (edit_unit_save unit_name fd st).st := by
  simp only [edit_unit_save]
  split
  · exact h
  · rename_i unit hunit
    repeat' split
    all_goals first
      | exact pfs_inv _ fd st h
      | (apply urwnu_inv
         · exact (pfs_inv _ fd st h).2
         · intro w hw
           simp only [List.mem_map] at hw
           obtain ⟨w0, hw0, rfl⟩ := hw
           split
           · exact Or.inr rfl
           · exact Or.inl ((pfs_inv _ fd st h).1 w0 hw0))

theorem reachable_inv (st : StoryState) (h : Reachable st) : story_inv st := by
  induction h with
  | init => exact ⟨by intro w hw; simp at hw, List.nodup_nil⟩
  | add st unit_type fd _ ih => exact add_unit_save_inv unit_type fd st ih
  | edit st unit_name fd _ ih => exact edit_unit_save_inv unit_name fd st ih

/-! ### Results of the step-3 rewrite on single attributes -/

theorem rewrite_features_string_result {schema : List (String × FType)} {fs : Features}
    {f s : String} (names : List String) (uname : String) (old_name : Option String)
    (hnds : (schema.map Prod.fst).Nodup) (hmem : (f, FType.tStr) ∈ schema)
    (hndf : (featureKeys fs).Nodup)
    (hl : lookupF fs f = some (Value.vStr s)) (hcase : old_name = some s ∨ s = uname) :
    lookupF (rewrite_features names uname old_name schema fs) f = some (Value.vStr uname) := by
  rw [lookupF_rewrite_features_of_mem names uname old_name schema fs hnds hmem hndf, hl]
  show some (rewrite_value names uname old_name FType.tStr (Value.vStr s)) = _
  congr 1
  rcases hcase with hc | hc
  · simp only [rewrite_value, if_pos hc]
  · subst hc
    exact rewrite_value_uname names s old_name

theorem rewrite_features_list_result {schema : List (String × FType)} {fs : Features}
    {f o : String} {l : List String} (names : List String) (uname : String)
    (hnds : (schema.map Prod.fst).Nodup) (hmem : (f, FType.tList) ∈ schema)
    (hndf : (featureKeys fs).Nodup)
    (hl : lookupF fs f = some (Value.vList l)) (ho : o ≠ "") (hol : o ∈ l) :
    lookupF (rewrite_features names uname (some o) schema fs) f =
      some (Value.vList (l.map fun x => if x = o then uname else x)) := by
  rw [lookupF_rewrite_features_of_mem names uname (some o) schema fs hnds hmem hndf, hl]
  show some (rewrite_value names uname (some o) FType.tList (Value.vList l)) = _
  congr 1
  simp only [rewrite_value, if_pos (And.intro ho hol)]

theorem mem_map_replacement {l : List String} {o uname : String} (hol : o ∈ l) :
    uname ∈ l.map (fun x => if x = o then uname else x) :=
  List.mem_map.mpr ⟨o, hol, by simp⟩

theorem not_mem_map_replacement {l : List String} {o uname : String} (hne : uname ≠ o) :
    o ∉ l.map (fun x => if x = o then uname else x) := by
  intro hmem
  rcases List.mem_map.mp hmem with ⟨x, hx, hfx⟩
  by_cases hxo : x = o
  · rw [if_pos hxo] at hfx
    exact hne hfx
  · rw [if_neg hxo] at hfx
    exact hxo hfx

/-! ### Agreement of the two implementations (ORM-style vs raw-style) -/

theorem services_eq_db_feature (names : List String) (uname o fname : String) (fty : FType)
    (fs : Features) (ho : o ≠ "") (hndf : (featureKeys fs).Nodup) :
    services_rewrite_feature uname o fname fty fs =
      rewrite_feature names uname (some o) fname fty fs := by
  cases hl : lookupF fs fname with
  | none =>
      cases fty <;> simp [services_rewrite_feature, rewrite_feature, hl]
  | some v =>
      cases fty with
      | tList =>
          cases v with
          | vList l =>
              by_cases hol : o ∈ l
              · simp only [services_rewrite_feature, rewrite_feature, hl, if_pos hol,
                  if_pos (And.intro ho hol)]
              · have hc : ¬ (o ≠ "" ∧ o ∈ l) := fun hc => hol hc.2
                simp only [services_rewrite_feature, rewrite_feature, hl, if_neg hol, if_neg hc]
          | vStr s => simp [services_rewrite_feature, rewrite_feature, hl]
          | vBool b => simp [services_rewrite_feature, rewrite_feature, hl]
          | vInt n => simp [services_rewrite_feature, rewrite_feature, hl]
          | vFloat r => simp [services_rewrite_feature, rewrite_feature, hl]
      | tStr =>
          cases v with
          | vStr s =>
              by_cases h1 : s = o
              · have h1' : (some o : Option String) = some s := by rw [h1]
                simp only [services_rewrite_feature, rewrite_feature, hl, if_pos h1, if_pos h1']
              · have h1' : (some o : Option String) ≠ some s := by
                  intro hc
                  exact h1 (Option.some.inj hc).symm
                simp only [services_rewrite_feature, rewrite_feature, hl, if_neg h1, if_neg h1']
                by_cases h2 : s = uname ∧ uname ∉ names
                · rw [if_pos h2]
                  rw [show Value.vStr uname = Value.vStr s by rw [h2.1]]
                  exact (setF_self hndf hl).symm
                · rw [if_neg h2]
          | vList l => simp [services_rewrite_feature, rewrite_feature, hl]
          | vBool b => simp [services_rewrite_feature, rewrite_feature, hl]
          | vInt n => simp [services_rewrite_feature, rewrite_feature, hl]
          | vFloat r => simp [services_rewrite_feature, rewrite_feature, hl]
      | tBool => cases v <;> simp [services_rewrite_feature, rewrite_feature, hl]
      | tInt => cases v <;> simp [services_rewrite_feature, rewrite_feature, hl]
      | tFloat => cases v <;> simp [services_rewrite_feature, rewrite_feature, hl]

theorem services_eq_db_features (names : List String) (uname o : String)
    (schema : List (String × FType)) (fs : Features) (ho : o ≠ "")
    (hndf : (featureKeys fs).Nodup) :
    services_rewrite_features uname o schema fs =
      rewrite_features names uname (some o) schema fs := by
  induction schema generalizing fs with
  | nil => rfl
  | cons p rest ih =>
      obtain ⟨fname, fty⟩ := p
      simp only [services_rewrite_features, rewrite_features]
      rw [services_eq_db_feature names uname o fname fty fs ho hndf]
      exact ih _ (by rw [featureKeys_rewrite_feature]; exact hndf)

theorem services_eq_db_unit (names : List String) (uname o : String) (w : SUnit)
    (ho : o ≠ "") (hndf : (featureKeys w.features).Nodup) :
    services_rewrite_unit uname o w = rewrite_unit names uname (some o) w := by
  simp only [services_rewrite_unit, rewrite_unit]
  rw [services_eq_db_features names uname o _ _ ho hndf]

/-! ### The forward-resolution guard under a persisted unit -/

theorem rewrite_feature_no_forward_eq (names : List String) (uname : String)
    (old_name : Option String) (fname : String) (fty : FType) (fs : Features)
    (hmem : uname ∈ names) :
    rewrite_feature names uname old_name fname fty fs =
      rewrite_feature_no_forward uname old_name fname fty fs := by
  cases hl : lookupF fs fname with
  | none => cases fty <;> simp [rewrite_feature, rewrite_feature_no_forward, hl]
  | some v =>
      cases fty with
      | tStr =>
          cases v with
          | vStr s =>
              by_cases h1 : old_name = some s
              · simp only [rewrite_feature, rewrite_feature_no_forward, hl, if_pos h1]
              · have h2 : ¬ (s = uname ∧ uname ∉ names) := fun hc => hc.2 hmem
                simp only [rewrite_feature, rewrite_feature_no_forward, hl, if_neg h1, if_neg h2]
          | vList l => simp [rewrite_feature, rewrite_feature_no_forward, hl]
          | vBool b => simp [rewrite_feature, rewrite_feature_no_forward, hl]
          | vInt n => simp [rewrite_feature, rewrite_feature_no_forward, hl]
          | vFloat r => simp [rewrite_feature, rewrite_feature_no_forward, hl]
      | tList => cases v <;> simp [rewrite_feature, rewrite_feature_no_forward, hl]
      | tBool => cases v <;> simp [rewrite_feature, rewrite_feature_no_forward, hl]
      | tInt => cases v <;> simp [rewrite_feature, rewrite_feature_no_forward, hl]
      | tFloat => cases v <;> simp [rewrite_feature, rewrite_feature_no_forward, hl]

theorem rewrite_features_no_forward_eq (names : List String) (uname : String)
    (old_name : Option String) (schema : List (String × FType)) (fs : Features)
    (hmem : uname ∈ names) :
    rewrite_features names uname old_name schema fs =
      rewrite_features_no_forward uname old_name schema fs := by
  induction schema generalizing fs with
  | nil => rfl
  | cons p rest ih =>
      obtain ⟨fname, fty⟩ := p
      simp only [rewrite_features, rewrite_features_no_forward]
      rw [rewrite_feature_no_forward_eq names uname old_name fname fty fs hmem]
      exact ih _

theorem rewrite_unit_no_forward_eq (names : List String) (uname : String)
    (old_name : Option String) (w : SUnit) (hmem : uname ∈ names) :
    rewrite_unit names uname old_name w = rewrite_unit_no_forward uname old_name w := by
  simp only [rewrite_unit, rewrite_unit_no_forward]
  rw [rewrite_features_no_forward_eq names uname old_name _ _ hmem]

theorem rewrite_feature_self_old (names : List String) (uname fname : String) (fty : FType)
    (fs : Features) (hndf : (featureKeys fs).Nodup) :
    rewrite_feature names uname (some uname) fname fty fs = fs := by
  cases hl : lookupF fs fname with
  | none => exact rewrite_feature_of_lookup_none _ _ _ _ hl
  | some v =>
      rw [rewrite_feature_canonical _ _ _ _ hndf hl]
      cases fty with
      | tList =>
          cases v with
          | vList l =>
              by_cases hc : uname ≠ "" ∧ uname ∈ l
              · simp only [rewrite_value, if_pos hc]
                have hid : l.map (fun x => if x = uname then uname else x) = l := by
                  rw [show (fun x => if x = uname then uname else x) = fun x => x by
                    funext x
                    by_cases hx : x = uname
                    · rw [if_pos hx, hx]
                    · rw [if_neg hx]]
                  exact List.map_id l
                rw [hid]
                exact setF_self hndf hl
              · simp only [rewrite_value, if_neg hc]
                exact setF_self hndf hl
          | vStr s => exact setF_self hndf hl
          | vBool b => exact setF_self hndf hl
          | vInt n => exact setF_self hndf hl
          | vFloat r => exact setF_self hndf hl
      | tStr =>
          cases v with
          | vStr s =>
              by_cases h1 : (some uname : Option String) = some s
              · have hs : s = uname := (Option.some.inj h1).symm
                simp only [rewrite_value, if_pos h1]
                rw [show Value.vStr uname = Value.vStr s by rw [hs]]
                exact setF_self hndf hl
              · have h2 : ¬ (s = uname ∧ uname ∉ names) := by
                  rintro ⟨hs, -⟩
                  exact h1 (by rw [hs])
                simp only [rewrite_value, if_neg h1, if_neg h2]
                exact setF_self hndf hl
          | vList l => exact setF_self hndf hl
          | vBool b => exact setF_self hndf hl
          | vInt n => exact setF_self hndf hl
          | vFloat r => exact setF_self hndf hl
      | tBool => cases v <;> exact setF_self hndf hl
      | tInt => cases v <;> exact setF_self hndf hl
      | tFloat => cases v <;> exact setF_self hndf hl

theorem rewrite_features_self_old (names : List String) (uname : String)
    (schema : List (String × FType)) (fs : Features) (hndf : (featureKeys fs).Nodup) :
    rewrite_features names uname (some uname) schema fs = fs := by
  induction schema generalizing fs with
  | nil => rfl
  | cons p rest ih =>
      obtain ⟨fname, fty⟩ := p
      simp only [rewrite_features]
      rw [rewrite_feature_self_old names uname fname fty fs hndf]
      exact ih _ hndf

theorem rewrite_unit_self_old (names : List String) (uname : String) (w : SUnit)
    (hndf : (featureKeys w.features).Nodup) :
    rewrite_unit names uname (some uname) w = w := by
  cases w with
  | mk i ty nm fs =>
      simp only [rewrite_unit]
      congr 1
      exact rewrite_features_self_old names uname _ _ hndf

theorem map_eq_self_of_forall {α : Type} {l : List α} {f : α → α} (h : ∀ a ∈ l, f a = a) :
    l.map f = l := by
  induction l with
  | nil => rfl
  | cons a rest ih =>
      simp only [List.map_cons]
      rw [h a (List.mem_cons_self _ _), ih (fun b hb => h b (List.mem_cons_of_mem _ hb))]

theorem urwnu_create_units (st : StoryState) (u : SUnit)
    (hkeys : ∀ w ∈ st.units, (featureKeys w.features).Nodup) :
    (update_references_with_new_unit u (some u.name) st).units = st.units := by
  simp only [update_references_with_new_unit]
  apply map_eq_self_of_forall
  intro w hw
  by_cases h : w.id = u.id
  · rw [if_pos h]
  · rw [if_neg h]
    exact rewrite_unit_self_old _ _ _ (hkeys w hw)

/-! ### Deletion lemmas -/

theorem delete_unit_op_undefined (unit_name : String) (st : StoryState) :
    (delete_unit_op unit_name st).undefined_names = st.undefined_names := by
  unfold delete_unit_op
  split <;> rfl

theorem delete_unit_op_units (unit_name : String) (st : StoryState) :
    ∀ w ∈ (delete_unit_op unit_name st).units, w ∈ st.units := by
  unfold delete_unit_op
  split
  · intro w hw
    exact hw
  · intro w hw
    exact List.mem_of_mem_filter hw

theorem delete_unit_op_units_missing (unit_name : String) (st : StoryState)
    (h : get_unit_by_name st.units unit_name = none) :
    (delete_unit_op unit_name st).units = st.units := by
  unfold delete_unit_op
  rw [h]

theorem delete_unit_op_units_found (unit_name : String) (st : StoryState) (u : SUnit)
    (h : get_unit_by_name st.units unit_name = some u) :
    (delete_unit_op unit_name st).units = st.units.filter (fun w => w.id ≠ u.id) := by
  unfold delete_unit_op
  rw [h]

/-! ## Claim theorems -/

/-- C1, counterexample: after reconciling unit Bravo in the story `fx_stC1`,
the name Ghost occurs in Anna's reference-list attribute and names no unit
(it is dangling) yet is absent from `undefined_names`, while Stale is in
`undefined_names` yet dangles from no unit — refuting, in both directions,
the claim that `undefined_names` is exactly the set of dangling
reference-list names immediately after reconciliation returns. -/
theorem c1_counterexample :
    ("Ghost" ∈ dangling_names (update_references_with_new_unit fx_uBravo (some "Bravo") fx_stC1) ∧
      "Ghost" ∉ (update_references_with_new_unit fx_uBravo (some "Bravo") fx_stC1).undefined_names) ∧
    ("Stale" ∈ (update_references_with_new_unit fx_uBravo (some "Bravo") fx_stC1).undefined_names ∧
      "Stale" ∉ dangling_names (update_references_with_new_unit fx_uBravo (some "Bravo") fx_stC1)) := by
  decide

/-- C1 (amended): immediately after `update_references_with_new_unit` returns
for a persisted unit, every name occurring in one of the reconciled unit's own
list-valued features that is not the name of any existing unit of the story is
in `undefined_names`.  (The claimed exactness fails in both directions: names
dangling only from other units are not collected, and stale entries are never
removed — see the counterexample.) -/
theorem c1_reconciled_units_dangling_names_recorded (st : StoryState) (u : SUnit)
    (old_name : Option String) (f v : String) (l : List String)
    (hu : u ∈ st.units) (hfl : (f, Value.vList l) ∈ u.features) (hvl : v ∈ l)
    (hd : get_unit_by_name st.units v = none) :
    v ∈ (update_references_with_new_unit u old_name st).undefined_names :=
  urwnu_mem_undefined_of_dangling old_name v f l hu hfl hvl hd

/-- C1, witness: reconciling Anna (who lists the dangling name Ghost) in
`fx_stC1` records Ghost as undefined. -/
theorem c1_witness :
    "Ghost" ∈ (update_references_with_new_unit fx_uAnnaGhost (some "Anna") fx_stC1).undefined_names :=
  c1_reconciled_units_dangling_names_recorded fx_stC1 fx_uAnnaGhost (some "Anna")
    "Who is part of the group?" "Ghost" ["Ghost"]
    (by decide) (by decide) (by decide) (by decide)

/-- C5: on every story state reachable through the create and edit flows, no
existing unit's name is a member of `undefined_names` (each flow ends in a
reconciliation whose second block removes the persisted unit's name, and
names of existing units are never added). -/
theorem c5_no_unit_name_undefined (st : StoryState) (h : Reachable st) :
    ∀ w ∈ st.units, w.name ∉ st.undefined_names :=
  (reachable_inv st h).1

/-- C5, witness: in the story reached by creating Anna (who references the
dangling Ghost) from a fresh story, Anna's name is not undefined. -/
theorem c5_witness :
    fx_uAnnaGhost.name ∉
      (add_unit_save "Group" fx_fdAnna { units := [], undefined_names := [] }).st.undefined_names :=
  c5_no_unit_name_undefined _ (Reachable.add _ "Group" fx_fdAnna Reachable.init)
    fx_uAnnaGhost (by decide)

/-- C6: reconciliation is idempotent on the story state: a second call with
the same unit and the same `old_name` and no intervening change leaves the
state (all units' features and `undefined_names`) exactly as after the first
call.  The hypotheses state dictionary/set well-formedness: `undefined_names`
models a set (no duplicates) and each features dictionary has unique keys. -/
theorem c6_reconcile_idempotent (u : SUnit) (old_name : Option String) (st : StoryState)
    (h1 : st.undefined_names.Nodup)
    (h2 : ∀ w ∈ st.units, (featureKeys w.features).Nodup) :
    update_references_with_new_unit u old_name (update_references_with_new_unit u old_name st) =
      update_references_with_new_unit u old_name st :=
  urwnu_idem u old_name st h1 h2

/-- C6, witness: reconciling Bravo with old name Bob twice over `fx_stC3`
equals reconciling once. -/
theorem c6_witness :
    update_references_with_new_unit fx_uBravo (some "Bob")
        (update_references_with_new_unit fx_uBravo (some "Bob") fx_stC3) =
      update_references_with_new_unit fx_uBravo (some "Bob") fx_stC3 :=
  c6_reconcile_idempotent fx_uBravo (some "Bob") fx_stC3 (by decide) (by decide)

/-- C7: during reconciliation of a unit, every other unit's string-typed
attribute (per its type's feature schema) whose value equals `old_name`, or
(separately) equals the reconciled unit's name, ends up holding the
reconciled unit's name. -/
theorem c7_string_attribute_rewritten (st : StoryState) (u : SUnit) (old_name : Option String)
    (w : SUnit) (f s : String)
    (hw : w ∈ st.units) (hid : w.id ≠ u.id)
    (hmem : (f, FType.tStr) ∈ feature_schema_of w.unit_type)
    (hndf : (featureKeys w.features).Nodup)
    (hl : lookupF w.features f = some (Value.vStr s))
    (hcase : old_name = some s ∨ s = u.name) :
    ∃ w' ∈ (update_references_with_new_unit u old_name st).units,
      w'.id = w.id ∧ w'.name = w.name ∧
        lookupF w'.features f = some (Value.vStr u.name) := by
  refine ⟨rewrite_unit (st.units.map (fun w => w.name)) u.name old_name w,
    List.mem_map.mpr ⟨w, hw, by rw [if_neg hid]⟩,
    rewrite_unit_id _ _ _ _, rewrite_unit_name _ _ _ _, ?_⟩
  exact rewrite_features_string_result _ _ _ (feature_schema_of_keys_nodup w.unit_type)
    hmem hndf hl hcase

/-- C7, witness: reconciling Robert (old name Bob) rewrites Anna's
solidarity-reason string from Bob to Robert. -/
theorem c7_witness :
    ∃ w' ∈ (update_references_with_new_unit fx_uRobert (some "Bob") fx_stC7).units,
      w'.id = fx_uAnnaReasonBob.id ∧ w'.name = fx_uAnnaReasonBob.name ∧
        lookupF w'.features "Reason for solidarity" = some (Value.vStr fx_uRobert.name) :=
  c7_string_attribute_rewritten fx_stC7 fx_uRobert (some "Bob") fx_uAnnaReasonBob
    "Reason for solidarity" "Bob"
    (by decide) (by decide) (by decide) (by decide) (by decide) (Or.inl (by decide))

/-- C8: deleting a unit only deletes that unit's row: `undefined_names` is
left unchanged — in particular the deleted unit's name is not re-added even
if other units still reference it — and the remaining unit list is exactly
the original list with the deleted unit's row removed, so every other unit
survives with its record (name and all reference-valued attributes)
identical and dangling references remain unresolved; a failed lookup (404)
leaves the state untouched. -/
theorem c8_delete_frame (unit_name : String) (st : StoryState) :
    (delete_unit_op unit_name st).undefined_names = st.undefined_names ∧
    (get_unit_by_name st.units unit_name = none →
      (delete_unit_op unit_name st).units = st.units) ∧
    ∀ u, get_unit_by_name st.units unit_name = some u →
      (delete_unit_op unit_name st).units = st.units.filter (fun w => w.id ≠ u.id) :=
  ⟨delete_unit_op_undefined unit_name st,
   fun h => delete_unit_op_units_missing unit_name st h,
   fun u h => delete_unit_op_units_found unit_name st u h⟩

/-- C8, witness: deleting Bob from `fx_stC3` (where Anna's member list still
references Bob) leaves `undefined_names` unchanged and leaves exactly Anna —
with her record intact, dangling reference included. -/
theorem c8_witness :
    (delete_unit_op "Bob" fx_stC3).undefined_names = fx_stC3.undefined_names ∧
    (delete_unit_op "Bob" fx_stC3).units =
      fx_stC3.units.filter (fun w => w.id ≠ fx_uBobSelf.id) :=
  ⟨(c8_delete_frame "Bob" fx_stC3).1,
   (c8_delete_frame "Bob" fx_stC3).2.2 fx_uBobSelf (by decide)⟩

/-- C9: for every other unit and every non-empty `old_name` distinct from the
reconciled unit's name, the ORM-style per-unit rewrite (`services.py`) and the
raw-statement-style per-unit rewrite (`database_handler.py`) produce identical
resulting features, whatever list of story unit names the raw version
consults. -/
theorem c9_implementations_agree (names : List String) (uname old_name : String) (w : SUnit)
    (ho : old_name ≠ "") (hne : uname ≠ old_name)
    (hndf : (featureKeys w.features).Nodup) :
    services_rewrite_unit uname old_name w = rewrite_unit names uname (some old_name) w :=
  services_eq_db_unit names uname old_name w ho hndf

/-- C9, witness: both implementations send Anna (who references Bob in a
list attribute and in a string attribute) to the same rewritten unit under
the rename Bob to Robert. -/
theorem c9_witness :
    services_rewrite_unit "Robert" "Bob" fx_uAnnaBothBob =
      rewrite_unit ["Anna", "Robert"] "Robert" (some "Bob") fx_uAnnaBothBob :=
  c9_implementations_agree ["Anna", "Robert"] "Robert" "Bob" fx_uAnnaBothBob
    (by decide) (by decide) (by decide)

/-- C10: when the reconciled unit is among the story's persisted units, the
forward-reference-resolution guard is false, so the per-unit rewrite equals
the old-name-only rewrite; in particular after a create (the call site passes
the unit's own name as `old_name`) every other unit's feature values are
unchanged. -/
theorem c10_guard_false_when_persisted (st : StoryState) (u : SUnit) (old_name : Option String)
    (hu : u ∈ st.units)
    (hkeys : ∀ w ∈ st.units, (featureKeys w.features).Nodup) :
    (∀ w, rewrite_unit (st.units.map (fun x => x.name)) u.name old_name w =
      rewrite_unit_no_forward u.name old_name w) ∧
    (update_references_with_new_unit u (some u.name) st).units = st.units :=
  ⟨fun w => rewrite_unit_no_forward_eq _ _ _ w (List.mem_map.mpr ⟨u, hu, rfl⟩),
   urwnu_create_units st u hkeys⟩

/-- C10, witness: with Bob persisted in `fx_stC3w`, the rewrite of Anna
coincides with the old-name-only rewrite, and the create-flow reconciliation
of Bob leaves the unit list unchanged. -/
theorem c10_witness :
    (rewrite_unit (fx_stC3w.units.map (fun x => x.name)) fx_uBob.name (some "Anna") fx_uAnnaBob =
      rewrite_unit_no_forward fx_uBob.name (some "Anna") fx_uAnnaBob) ∧
    (update_references_with_new_unit fx_uBob (some fx_uBob.name) fx_stC3w).units =
      fx_stC3w.units :=
  ⟨(c10_guard_false_when_persisted fx_stC3w fx_uBob (some "Anna") (by decide) (by decide)).1
      fx_uAnnaBob,
   (c10_guard_false_when_persisted fx_stC3w fx_uBob (some "Anna") (by decide) (by decide)).2⟩

/-! ### Flow-reduction helpers -/

theorem add_unit_save_ok (unit_type : String) (fd : FormData) (st : StoryState)
    (herr : (process_form_submission (feature_schema_of unit_type) fd st).errors = [])
    (hname : ¬ (submitted_name (feature_schema_of unit_type) fd st = ""))
    (hdup : get_unit_by_name (process_form_submission (feature_schema_of unit_type) fd st).st.units
      (submitted_name (feature_schema_of unit_type) fd st) = none) :
    add_unit_save unit_type fd st =
      { st := update_references_with_new_unit
          { id := fresh_id (process_form_submission (feature_schema_of unit_type) fd st).st.units,
            unit_type := unit_type,
            name := submitted_name (feature_schema_of unit_type) fd st,
            features := setF (process_form_submission (feature_schema_of unit_type) fd st).features
              "name" (Value.vStr (submitted_name (feature_schema_of unit_type) fd st)) }
          (some (submitted_name (feature_schema_of unit_type) fd st))
          { units := (process_form_submission (feature_schema_of unit_type) fd st).st.units ++
              [{ id := fresh_id (process_form_submission (feature_schema_of unit_type) fd st).st.units,
                 unit_type := unit_type,
                 name := submitted_name (feature_schema_of unit_type) fd st,
                 features := setF (process_form_submission (feature_schema_of unit_type) fd st).features
                   "name" (Value.vStr (submitted_name (feature_schema_of unit_type) fd st)) }],
            undefined_names :=
              (process_form_submission (feature_schema_of unit_type) fd st).st.undefined_names },
        ok := true } := by
  simp only [add_unit_save]
  rw [if_neg hname, hdup]
  rw [if_neg (show ¬ ((none : Option SUnit).isSome = true) by simp)]
  rw [herr, List.nil_append]
  rw [if_pos rfl]

theorem edit_unit_save_ok (unit_name : String) (fd : FormData) (st : StoryState) (B : SUnit)
    (hB : get_unit_by_name st.units unit_name = some B)
    (herr : (process_form_submission (feature_schema_of B.unit_type) fd st).errors = [])
    (hname : ¬ (submitted_name (feature_schema_of B.unit_type) fd st = ""))
    (hdup : get_unit_by_name (process_form_submission (feature_schema_of B.unit_type) fd st).st.units
      (submitted_name (feature_schema_of B.unit_type) fd st) = none) :
    edit_unit_save unit_name fd st =
      { st := update_references_with_new_unit
          { id := B.id,
            unit_type := B.unit_type,
            name := submitted_name (feature_schema_of B.unit_type) fd st,
            features := setF (process_form_submission (feature_schema_of B.unit_type) fd st).features
              "name" (Value.vStr (submitted_name (feature_schema_of B.unit_type) fd st)) }
          (some B.name)
          { units := (process_form_submission (feature_schema_of B.unit_type) fd st).st.units.map
              (fun w => if w.id = B.id then
                { id := B.id,
                  unit_type := B.unit_type,
                  name := submitted_name (feature_schema_of B.unit_type) fd st,
                  features := setF (process_form_submission (feature_schema_of B.unit_type) fd st).features
                    "name" (Value.vStr (submitted_name (feature_schema_of B.unit_type) fd st)) }
                else w),
            undefined_names :=
              (process_form_submission (feature_schema_of B.unit_type) fd st).st.undefined_names },
        ok := true } := by
  simp only [edit_unit_save, hB]
  rw [if_neg hname, hdup]
  rw [herr, List.nil_append]
  rw [if_pos rfl]

/-- C4, counterexample: submitting a second unit named Bob whose member
list names the nonexistent Ghost fails with the duplicate error and leaves
the unit list unchanged, but `undefined_names` is mutated (Ghost was
appended by `process_form_submission` before the duplicate check ran) —
refuting the claim that the failed operation leaves `undefined_names`
unchanged with no mutation. -/
theorem c4_counterexample :
    (add_unit_save "Group" fx_fdBobDup fx_stC4).ok = false ∧
    (add_unit_save "Group" fx_fdBobDup fx_stC4).st.units = fx_stC4.units ∧
    (add_unit_save "Group" fx_fdBobDup fx_stC4).st.undefined_names ≠ fx_stC4.undefined_names := by
  decide

/-- C4 (amended): attempting to create a second unit under an already-used
name fails; the unit list is unchanged and neither the unit insert nor the
reference resolver runs — the resulting state is exactly the state
`process_form_submission` left behind.  `undefined_names`, however, is not
unchanged in general: form processing has already appended the submitted
reference names that match no existing unit (every prior entry is kept, and
every new entry is such a dangling form value). -/
theorem c4_duplicate_rejected (unit_type : String) (fd : FormData) (st : StoryState)
    (hname : ¬ (submitted_name (feature_schema_of unit_type) fd st = ""))
    (hdup : (get_unit_by_name st.units
      (submitted_name (feature_schema_of unit_type) fd st)).isSome) :
    (add_unit_save unit_type fd st).ok = false ∧
    (add_unit_save unit_type fd st).st =
      (process_form_submission (feature_schema_of unit_type) fd st).st ∧
    (add_unit_save unit_type fd st).st.units = st.units ∧
    (∀ v ∈ st.undefined_names, v ∈ (add_unit_save unit_type fd st).st.undefined_names) ∧
    (∀ v ∈ (add_unit_save unit_type fd st).st.undefined_names,
      v ∈ st.undefined_names ∨ get_unit_by_name st.units v = none) := by
  have hdup' : (get_unit_by_name
      (process_form_submission (feature_schema_of unit_type) fd st).st.units
      (submitted_name (feature_schema_of unit_type) fd st)).isSome = true := by
    rw [pfs_units]
    exact hdup
  have hred : add_unit_save unit_type fd st =
      { st := (process_form_submission (feature_schema_of unit_type) fd st).st, ok := false } := by
    simp only [add_unit_save]
    rw [if_neg hname, if_pos hdup']
    rw [if_neg (fun hc => List.cons_ne_nil _ _ (List.append_eq_nil.mp hc).2)]
  rw [hred]
  exact ⟨rfl, rfl, pfs_units _ _ _, fun v hv => pfs_undefined_mono _ fd st hv,
    fun v hv => pfs_undefined_mem _ fd st hv⟩

/-- C4, witness: the duplicate Bob submission over `fx_stC4` fails and
leaves the unit list unchanged. -/
theorem c4_witness :
    (add_unit_save "Group" fx_fdBobDup fx_stC4).ok = false ∧
    (add_unit_save "Group" fx_fdBobDup fx_stC4).st.units = fx_stC4.units :=
  ⟨(c4_duplicate_rejected "Group" fx_fdBobDup fx_stC4 (by decide) (by decide)).1,
   (c4_duplicate_rejected "Group" fx_fdBobDup fx_stC4 (by decide) (by decide)).2.2.1⟩

/-! ### State-independent facts about the concrete forms -/

set_option maxHeartbeats 1600000 in
theorem fdAnna_submitted_name (st : StoryState) :
    submitted_name (feature_schema_of "Group") fx_fdAnna st = "Anna" := rfl

set_option maxHeartbeats 1600000 in
theorem fdAnna_errors (st : StoryState) :
    (process_form_submission (feature_schema_of "Group") fx_fdAnna st).errors = [] := rfl

set_option maxHeartbeats 1600000 in
theorem fdAnna_units (st : StoryState) :
    (process_form_submission (feature_schema_of "Group") fx_fdAnna st).st.units = st.units := rfl

set_option maxHeartbeats 1600000 in
theorem fdAnna_features (st : StoryState) :
    setF (process_form_submission (feature_schema_of "Group") fx_fdAnna st).features "name"
      (Value.vStr "Anna") = fx_group_features "Anna" "" ["Ghost"] := rfl

set_option maxHeartbeats 1600000 in
theorem fdGhost_submitted_name (st : StoryState) :
    submitted_name (feature_schema_of "Group") fx_fdGhost st = "Ghost" := rfl

set_option maxHeartbeats 1600000 in
theorem fdGhost_errors (st : StoryState) :
    (process_form_submission (feature_schema_of "Group") fx_fdGhost st).errors = [] := rfl

set_option maxHeartbeats 1600000 in
theorem fdGhost_units (st : StoryState) :
    (process_form_submission (feature_schema_of "Group") fx_fdGhost st).st.units = st.units := rfl

/-- C2: in any well-formed story with no unit named Anna and no unit named
Ghost, creating the group Anna whose member list holds Ghost succeeds and
leaves Ghost in `undefined_names`; subsequently creating a unit named Ghost
succeeds and removes Ghost from `undefined_names`. -/
theorem c2_forward_reference (st : StoryState)
    (hnd : st.undefined_names.Nodup)
    (hAnna : get_unit_by_name st.units "Anna" = none)
    (hGhost : get_unit_by_name st.units "Ghost" = none) :
    (add_unit_save "Group" fx_fdAnna st).ok = true ∧
    "Ghost" ∈ (add_unit_save "Group" fx_fdAnna st).st.undefined_names ∧
    (add_unit_save "Group" fx_fdGhost (add_unit_save "Group" fx_fdAnna st).st).ok = true ∧
    "Ghost" ∉ (add_unit_save "Group" fx_fdGhost
      (add_unit_save "Group" fx_fdAnna st).st).st.undefined_names := by
  have hdup1 : get_unit_by_name
      (process_form_submission (feature_schema_of "Group") fx_fdAnna st).st.units
      (submitted_name (feature_schema_of "Group") fx_fdAnna st) = none := by
    rw [fdAnna_units, fdAnna_submitted_name]
    exact hAnna
  have hred1 := add_unit_save_ok "Group" fx_fdAnna st (fdAnna_errors st)
    (by rw [fdAnna_submitted_name]; decide) hdup1
  rw [fdAnna_submitted_name, fdAnna_units, fdAnna_features] at hred1
  have hmem1 : "Ghost" ∈ (add_unit_save "Group" fx_fdAnna st).st.undefined_names := by
    rw [hred1]
    refine urwnu_mem_undefined_of_dangling _ "Ghost" "Who is part of the group?" ["Ghost"]
      (List.mem_append_right _ (List.mem_cons_self _ _))
      ((by decide : ("Who is part of the group?", Value.vList ["Ghost"]) ∈
        fx_group_features "Anna" "" ["Ghost"]))
      (by decide) ?_
    rw [get_unit_by_name_eq_none_iff, List.map_append, List.mem_append]
    rintro (h | h)
    · exact (get_unit_by_name_eq_none_iff st.units "Ghost").mp hGhost h
    · simp at h
  have hnd1 : (add_unit_save "Group" fx_fdAnna st).st.undefined_names.Nodup := by
    rw [hred1]
    exact urwnu_undefined_nodup _ _ (pfs_undefined_nodup _ _ _ hnd)
  have hG1 : get_unit_by_name (add_unit_save "Group" fx_fdAnna st).st.units "Ghost" = none := by
    rw [hred1]
    rw [urwnu_get_none_iff, get_unit_by_name_eq_none_iff, List.map_append, List.mem_append]
    rintro (h | h)
    · exact (get_unit_by_name_eq_none_iff st.units "Ghost").mp hGhost h
    · simp at h
  have hdup2 : get_unit_by_name
      (process_form_submission (feature_schema_of "Group") fx_fdGhost
        (add_unit_save "Group" fx_fdAnna st).st).st.units
      (submitted_name (feature_schema_of "Group") fx_fdGhost
        (add_unit_save "Group" fx_fdAnna st).st) = none := by
    rw [fdGhost_units, fdGhost_submitted_name]
    exact hG1
  have hred2 := add_unit_save_ok "Group" fx_fdGhost (add_unit_save "Group" fx_fdAnna st).st
    (fdGhost_errors _) (by rw [fdGhost_submitted_name]; decide) hdup2
  rw [fdGhost_submitted_name, fdGhost_units] at hred2
  refine ⟨by rw [hred1], hmem1, by rw [hred2], ?_⟩
  rw [hred2]
  exact urwnu_name_not_mem_undefined _ _ (pfs_undefined_nodup _ _ _ hnd1)

/-- C2, witness: the forward-reference scenario run from a fresh story. -/
theorem c2_witness :
    (add_unit_save "Group" fx_fdAnna { units := [], undefined_names := [] }).ok = true ∧
    "Ghost" ∈ (add_unit_save "Group" fx_fdAnna
      { units := [], undefined_names := [] }).st.undefined_names ∧
    (add_unit_save "Group" fx_fdGhost (add_unit_save "Group" fx_fdAnna
      { units := [], undefined_names := [] }).st).ok = true ∧
    "Ghost" ∉ (add_unit_save "Group" fx_fdGhost (add_unit_save "Group" fx_fdAnna
      { units := [], undefined_names := [] }).st).st.undefined_names :=
  c2_forward_reference { units := [], undefined_names := [] }
    (by decide) (by decide) (by decide)

/-- C3, counterexample: in `fx_stC3` (Anna references Bob; Bob's own member
list also holds the name Bob), the edit renaming Bob to Robert succeeds, but
reconciliation then finds "Bob" in the renamed unit's own list-valued
features, no longer matching any unit, and appends it to `undefined_names` —
refuting the claim that "Bob" is not added to `undefined_names` for every
pair of units where A references B. -/
theorem c3_counterexample :
    (edit_unit_save "Bob" fx_fdRobert fx_stC3).ok = true ∧
    "Bob" ∈ (edit_unit_save "Bob" fx_fdRobert fx_stC3).st.undefined_names := by
  decide

/-- C3 (amended): renaming B from Bob to Robert through the edit flow
rewrites every occurrence of Bob in A's reference-list attribute to Robert
(so the list contains Robert and no longer contains Bob), and — provided the
renamed unit's own submitted list-valued features do not themselves contain
"Bob" (the counterexample shows the claim fails without this proviso) —
"Bob" is not added to `undefined_names`. -/
theorem c3_rename_propagates (st : StoryState) (A B : SUnit) (fd : FormData)
    (f : String) (l : List String)
    (hB : get_unit_by_name st.units "Bob" = some B)
    (hA : A ∈ st.units) (hAB : ¬ (A.id = B.id))
    (hf : (f, FType.tList) ∈ feature_schema_of A.unit_type)
    (hAf : lookupF A.features f = some (Value.vList l))
    (hBobl : "Bob" ∈ l)
    (hndA : (featureKeys A.features).Nodup)
    (herr : (process_form_submission (feature_schema_of B.unit_type) fd st).errors = [])
    (hname : submitted_name (feature_schema_of B.unit_type) fd st = "Robert")
    (hRob : get_unit_by_name st.units "Robert" = none)
    (hclean : ∀ g m, (g, Value.vList m) ∈
      setF (process_form_submission (feature_schema_of B.unit_type) fd st).features "name"
        (Value.vStr "Robert") → "Bob" ∉ m)
    (hBobund : "Bob" ∉ st.undefined_names) :
    (edit_unit_save "Bob" fd st).ok = true ∧
    (∃ A' ∈ (edit_unit_save "Bob" fd st).st.units, A'.id = A.id ∧
      lookupF A'.features f =
        some (Value.vList (l.map fun x => if x = "Bob" then "Robert" else x)) ∧
      "Robert" ∈ (l.map fun x => if x = "Bob" then "Robert" else x) ∧
      "Bob" ∉ (l.map fun x => if x = "Bob" then "Robert" else x)) ∧
    "Bob" ∉ (edit_unit_save "Bob" fd st).st.undefined_names := by
  have hBname : B.name = "Bob" := by
    have h := List.find?_some hB
    simpa using h
  have hdup : get_unit_by_name
      (process_form_submission (feature_schema_of B.unit_type) fd st).st.units
      (submitted_name (feature_schema_of B.unit_type) fd st) = none := by
    rw [pfs_units, hname]
    exact hRob
  have hok := edit_unit_save_ok "Bob" fd st B hB herr (by rw [hname]; decide) hdup
  rw [hname, pfs_units, hBname] at hok
  refine ⟨by rw [hok], ?_, ?_⟩
  · rw [hok]
    refine ⟨rewrite_unit (((st.units.map (fun w => if w.id = B.id then
        { id := B.id, unit_type := B.unit_type, name := "Robert",
          features := setF (process_form_submission (feature_schema_of B.unit_type) fd st).features
            "name" (Value.vStr "Robert") } else w))).map (fun w => w.name)) "Robert" (some "Bob") A,
      ?_, rewrite_unit_id _ _ _ _, ?_, mem_map_replacement hBobl,
      not_mem_map_replacement (by decide)⟩
    · refine List.mem_map.mpr ⟨A, List.mem_map.mpr ⟨A, hA, by rw [if_neg hAB]⟩, ?_⟩
      rw [if_neg hAB]
    · exact rewrite_features_list_result _ _ (feature_schema_of_keys_nodup A.unit_type)
        hf hndA hAf (by decide) hBobl
  · rw [hok]
    intro hc
    rw [urwnu_undefined_eq] at hc
    have hc' : "Bob" ∈ add_undefined_from_features
        (st.units.map (fun w => if w.id = B.id then
          { id := B.id, unit_type := B.unit_type, name := "Robert",
            features := setF (process_form_submission (feature_schema_of B.unit_type) fd st).features
              "name" (Value.vStr "Robert") } else w))
        (setF (process_form_submission (feature_schema_of B.unit_type) fd st).features
          "name" (Value.vStr "Robert"))
        (process_form_submission (feature_schema_of B.unit_type) fd st).st.undefined_names := by
      revert hc
      split
      · intro hc
        exact List.erase_subset _ _ hc
      · intro hc
        exact hc
    rcases auff_mem _ _ hc' with h | h
    · rcases pfs_undefined_mem _ _ _ h with h2 | h2
      · exact hBobund h2
      · rw [hB] at h2
        exact Option.noConfusion h2
    · obtain ⟨⟨g, m, hgm, hbm⟩, -⟩ := h
      exact hclean g m hgm hbm

/-- C3, witness: renaming Bob to Robert in `fx_stC3w` (where Bob's own
submitted features carry no reference to Bob) succeeds without adding Bob
to `undefined_names`. -/
theorem c3_witness :
    (edit_unit_save "Bob" fx_fdRobertClean fx_stC3w).ok = true ∧
    "Bob" ∉ (edit_unit_save "Bob" fx_fdRobertClean fx_stC3w).st.undefined_names :=
  ⟨(c3_rename_propagates fx_stC3w fx_uAnnaBob fx_uBob fx_fdRobertClean
      "Who is part of the group?" ["Bob"]
      (by decide) (by decide) (by decide) (by decide) (by decide) (by decide) (by decide)
      (by decide) (by decide) (by decide)
      (by
        intro g m hgm hbm
        rw [(by decide : setF (process_form_submission (feature_schema_of fx_uBob.unit_type)
            fx_fdRobertClean fx_stC3w).features "name" (Value.vStr "Robert") =
            fx_group_features "Robert" "" [])] at hgm
        simp only [fx_group_features, List.mem_cons, List.not_mem_nil, or_false] at hgm
        rcases hgm with h | h | h | h
        · injection h with hg hv
          exact Value.noConfusion hv
        · injection h with hg hv
          injection hv with hm
          rw [hm] at hbm
          exact List.not_mem_nil _ hbm
        · injection h with hg hv
          exact Value.noConfusion hv
        · injection h with hg hv
          injection hv with hm
          rw [hm] at hbm
          exact List.not_mem_nil _ hbm)
      (by decide)).1,
   (c3_rename_propagates fx_stC3w fx_uAnnaBob fx_uBob fx_fdRobertClean
      "Who is part of the group?" ["Bob"]
      (by decide) (by decide) (by decide) (by decide) (by decide) (by decide) (by decide)
      (by decide) (by decide) (by decide)
      (by
        intro g m hgm hbm
        rw [(by decide : setF (process_form_submission (feature_schema_of fx_uBob.unit_type)
            fx_fdRobertClean fx_stC3w).features "name" (Value.vStr "Robert") =
            fx_group_features "Robert" "" [])] at hgm
        simp only [fx_group_features, List.mem_cons, List.not_mem_nil, or_false] at hgm
        rcases hgm with h | h | h | h
        · injection h with hg hv
          exact Value.noConfusion hv
        · injection h with hg hv
          injection hv with hm
          rw [hm] at hbm
          exact List.not_mem_nil _ hbm
        · injection h with hg hv
          exact Value.noConfusion hv
        · injection h with hg hv
          injection hv with hm
          rw [hm] at hbm
          exact List.not_mem_nil _ hbm)
      (by decide)).2.2⟩

end StoryCreator

